import Mathlib

/-! # be13_api : `feature_recorder_set`

A shallow embedding of `src/feature_recorder_set.cpp`.

* A `feature_recorder *` is an address: the index of the object in `heap`,
  the list of all recorders allocated with `new`, in allocation order.
  A null pointer is `none`.
* `frm` and `scanner_stats` are `std::map`s keyed by `std::string`: association
  lists kept in ascending key order.
* The recorder operations `open()`, `flush()` and `close()` belong to the
  external `feature_recorder`; every call is appended to `calls`.
* What `create_name` writes to `std::cerr` is appended to `cerr`.
* Every operation is run to completion, one after the other: there are no threads.
  Each method is given once more with its lock scopes and container accesses as a
  sequence of events (the `_traced` definitions).
* A `double` is an IEEE 754 binary64 value; `+=` rounds to nearest, ties to even.
-/

namespace be13

/-! ## Strings and maps -/

/-- Ordering of `std::string` keys: lexicographic on the character sequence. -/
def string_lt (a b : String) : Prop := a.data < b.data

instance string_lt_decidable (a b : String) : Decidable (string_lt a b) := by
  unfold string_lt; infer_instance

/-- The member `find` of `std::map`: the value bound to `k`, or `none` for `end()`. -/
def map_find {β : Type} : List (String × β) → String → Option β
  | [], _ => none
  | (k', v) :: rest, k => if k' = k then some v else map_find rest k

/-- The assignment `m[k] = v` on a `std::map`: replaces the value of an existing
key, inserts in key order otherwise. -/
def map_assign {β : Type} : List (String × β) → String → β → List (String × β)
  | [], k, v => [(k, v)]
  | (k', v') :: rest, k, v =>
      if string_lt k k' then (k, v) :: (k', v') :: rest
      else if k = k' then (k, v) :: rest
      else (k', v') :: map_assign rest k v

/-- The keys of a map, in iteration order. -/
def map_keys {β : Type} (m : List (String × β)) : List String := m.map Prod.fst

/-- The values of a map, in iteration order. -/
def map_values {β : Type} (m : List (String × β)) : List β := m.map Prod.snd

/-- Representation invariant of a `std::map`: keys strictly ascending. -/
def map_sorted {β : Type} (m : List (String × β)) : Prop :=
  List.Pairwise string_lt (map_keys m)

instance map_sorted_decidable {β : Type} (m : List (String × β)) : Decidable (map_sorted m) := by
  unfold map_sorted; infer_instance

/-! ## Constants declared in the headers -/

/-- Modelled from the spec: the bit masks `feature_recorder_set::ONLY_ALERT`,
`feature_recorder_set::SET_DISABLED` and `feature_recorder::FLAG_DISABLED`. Their
declarations are in headers that are not part of the sources, so they are
parameters of every definition that tests or sets them. -/
structure flag_bits where
  ONLY_ALERT : Nat
  SET_DISABLED : Nat
  FLAG_DISABLED : Nat
  deriving DecidableEq

def ALERT_RECORDER_NAME : String := "alerts"

def DISABLED_RECORDER_NAME : String := "disabled"

/-! ## The external recorder -/

/-- The fields of a `feature_recorder` that the set reads or writes. -/
structure feature_recorder where
  outdir : String
  input_fname : String
  name : String
  flags : Nat
  stop_list_recorder : Option Nat
  deriving DecidableEq

/-- Modelled from the spec: the constructor `feature_recorder(outdir,input_fname,name)`
of the external recorder, which is not part of the sources: a recorder bound to
the three strings, no flag set, no stop-list child. -/
def feature_recorder.construct (outdir input_fname name : String) : feature_recorder :=
  { outdir := outdir, input_fname := input_fname, name := name, flags := 0,
    stop_list_recorder := none }

/-- Modelled from the spec: `feature_recorder::set_flag`, the setter of the
recorder-level flags (the spec's settable "disabled" flag); not part of the sources. -/
def feature_recorder.set_flag (r : feature_recorder) (f : Nat) : feature_recorder :=
  { r with flags := r.flags ||| f }

/-- Modelled from the spec: `feature_recorder::flag_set`, the test of a
recorder-level flag; not part of the sources. -/
def feature_recorder.flag_set (r : feature_recorder) (f : Nat) : Bool :=
  (r.flags &&& f) != 0

/-- A call of one of the external recorder operations on the recorder at an address. -/
inductive recorder_call where
  | call_open (fr : Nat)
  | call_flush (fr : Nat)
  | call_close (fr : Nat)
  deriving DecidableEq

/-! ## The type `double` -/

/-- The values of the C++ type `double`, IEEE 754 binary64: not-a-number (all NaNs are
one value), the two infinities, and the finite numbers `(-1)^neg * m * 2^e`. A finite
value is kept in the form with `m < 2^53` and `-1074 ≤ e ≤ 971`, and with `2^52 ≤ m`
unless `e = -1074` (the subnormal numbers and the two zeros). -/
inductive double where
  | nan
  | inf (neg : Bool)
  | fin (neg : Bool) (m : Nat) (e : Int)
  deriving DecidableEq

/-- The number of binary digits of `n` when it is at most `fuel`. -/
def bit_length_aux : Nat → Nat → Nat
  | 0, _ => 0
  | fuel + 1, n => if n = 0 then 0 else bit_length_aux fuel (n / 2) + 1

/-- The number of binary digits of `n`. -/
def bit_length (n : Nat) : Nat := bit_length_aux n n

/-- The `double` nearest to `(-1)^neg * M * 2^e` for `M > 0` and `e ≥ -1074`, ties to
the even significand, infinite when the rounded value is out of range. -/
def double_round (neg : Bool) (M : Nat) (e : Int) : double :=
  let L := bit_length M
  if L ≤ 53 then
    let k := min (53 - L) (e + 1074).toNat
    double.fin neg (M * 2 ^ k) (e - k)
  else
    let k := L - 53
    let q := M / 2 ^ k
    let r := M % 2 ^ k
    let half := 2 ^ (k - 1)
    let q2 := if r > half ∨ (r = half ∧ q % 2 = 1) then q + 1 else q
    let q3 := if q2 = 2 ^ 53 then 2 ^ 52 else q2
    let k3 := if q2 = 2 ^ 53 then k + 1 else k
    if e + k3 > 971 then double.inf neg else double.fin neg q3 (e + k3)

/-- The sum `a + b` of two `double`s, as `+=` computes it in the default rounding
mode: the exact sum rounded to the nearest `double`. -/
def double_add : double → double → double
  | double.nan, _ => double.nan
  | _, double.nan => double.nan
  | double.inf a, double.inf b => if a = b then double.inf a else double.nan
  | double.inf a, double.fin _ _ _ => double.inf a
  | double.fin _ _ _, double.inf b => double.inf b
  | double.fin n1 m1 e1, double.fin n2 m2 e2 =>
    let e := min e1 e2
    let x1 : Int := (if n1 then -1 else 1) * ((m1 * 2 ^ (e1 - e).toNat : Nat) : Int)
    let x2 : Int := (if n2 then -1 else 1) * ((m2 * 2 ^ (e2 - e).toNat : Nat) : Int)
    let x := x1 + x2
    if x = 0 then double.fin (n1 && n2) 0 (-1074)
    else double_round (decide (x < 0)) x.natAbs e

/-- The `double` `0.0`. -/
def double.zero : double := double.fin false 0 (-1074)

/-- The exact value of a finite `double`. -/
def double.exact : double → Option Rat
  | double.nan => none
  | double.inf _ => none
  | double.fin neg m e => some ((if neg then -1 else 1) * (m : Rat) * (2 : Rat) ^ e)

/-- The counters of one bucket of `scanner_stats`: `seconds` is a `double`, `calls`
the value of an unsigned counter. -/
structure pstats where
  seconds : double
  calls : Nat
  deriving DecidableEq

/-! ## The set -/

/-- The members of `feature_recorder_set`, with the heap of recorders, the log
of recorder calls and the text written to `std::cerr`. -/
structure feature_recorder_set where
  flags : Nat
  input_fname : String
  outdir : String
  frm : List (String × Nat)
  seen_set : List String
  scanner_stats : List (String × pstats)
  heap : List feature_recorder
  calls : List recorder_call
  cerr : List String
  deriving DecidableEq

namespace feature_recorder_set

/-- The member initialisers shared by both constructors: the given flags and
strings, every container empty. -/
def initial (flags_ : Nat) (input_fname_ outdir_ : String) : feature_recorder_set :=
  { flags := flags_, input_fname := input_fname_, outdir := outdir_, frm := [],
    seen_set := [], scanner_stats := [], heap := [], calls := [], cerr := [] }

/-- The diagnostic of `create_name` for a name that is already registered. -/
def already_exists (name : String) : String :=
  "create_name: feature recorder \x27" ++ name ++ "\x27 already exists\n"

/-- `fr->stop_list_recorder = sl` on the heap. -/
def set_stop_list (heap : List feature_recorder) (fr sl : Nat) : List feature_recorder :=
  match heap[fr]? with
  | some r => heap.set fr { r with stop_list_recorder := some sl }
  | none => heap

/-- `feature_recorder_set::create_name` (lines 115-136). -/
def create_name (M : flag_bits) (s : feature_recorder_set) (name : String)
    (create_stop_file : Bool) : feature_recorder_set :=
  if (map_find s.frm name).isSome then
    { s with cerr := s.cerr ++ [already_exists name] }
  else
    let fr := s.heap.length
    let s1 := { s with
      heap := s.heap ++ [feature_recorder.construct s.outdir s.input_fname name],
      frm := map_assign s.frm name fr }
    let s2 :=
      if create_stop_file then
        let name_stopped := name ++ "_stopped"
        let sl := s1.heap.length
        { s1 with
          heap := set_stop_list
            (s1.heap ++ [feature_recorder.construct s1.outdir s1.input_fname name_stopped])
            fr sl,
          frm := map_assign s1.frm name_stopped sl }
      else s1
    if (s2.flags &&& M.SET_DISABLED) ≠ 0 then s2
    else
      let s3 := { s2 with calls := s2.calls ++ [recorder_call.call_open fr] }
      match (s3.heap[fr]?).bind feature_recorder.stop_list_recorder with
      | some sl => { s3 with calls := s3.calls ++ [recorder_call.call_open sl] }
      | none => s3

/-- The statement `frm[name]->set_flag(f)`. When `name` is not bound, `operator[]`
binds it to a null pointer, which is then dereferenced: the result is `none`. -/
def set_flag_at (s : feature_recorder_set) (name : String) (f : Nat) :
    Option feature_recorder_set :=
  match map_find s.frm name with
  | none => none
  | some fr =>
    match s.heap[fr]? with
    | none => none
    | some r => some { s with heap := s.heap.set fr (r.set_flag f) }

/-- The constructor `feature_recorder_set(uint32_t flags_)` (lines 22-32).
`none` is the failed `assert(0)`. -/
def ctor_flags (M : flag_bits) (flags_ : Nat) : Option feature_recorder_set :=
  let s := initial flags_ "" ""
  if (s.flags &&& M.SET_DISABLED) ≠ 0 then
    set_flag_at (create_name M s DISABLED_RECORDER_NAME false) DISABLED_RECORDER_NAME
      M.FLAG_DISABLED
  else none

/-- The constructor `feature_recorder_set(feature_files, input_fname_, outdir_,
create_stop_files)` (lines 38-57). `feature_files` is the `std::set<string>` as
the list of its elements in iteration order. -/
def ctor_files (M : flag_bits) (feature_files : List String) (input_fname_ outdir_ : String)
    (create_stop_files : Bool) : Option feature_recorder_set :=
  let s := initial 0 input_fname_ outdir_
  if (s.flags &&& M.SET_DISABLED) ≠ 0 then
    set_flag_at (create_name M s DISABLED_RECORDER_NAME false) DISABLED_RECORDER_NAME
      M.FLAG_DISABLED
  else
    let s1 := create_name M s ALERT_RECORDER_NAME false
    some (feature_files.foldl (fun acc it => create_name M acc it create_stop_files) s1)

/-- `feature_recorder_set::flush_all` (lines 59-64). -/
def flush_all (s : feature_recorder_set) : feature_recorder_set :=
  { s with calls := s.calls ++ (map_values s.frm).map recorder_call.call_flush }

/-- `feature_recorder_set::close_all` (lines 66-71). -/
def close_all (s : feature_recorder_set) : feature_recorder_set :=
  { s with calls := s.calls ++ (map_values s.frm).map recorder_call.call_close }

/-- `feature_recorder_set::has_name` (lines 74-77). -/
def has_name (s : feature_recorder_set) (name : String) : Bool :=
  (map_find s.frm name).isSome

/-- `feature_recorder_set::get_name` (lines 82-97): the address found, `none` for
the null pointer. -/
def get_name (M : flag_bits) (s : feature_recorder_set) (name : String) : Option Nat :=
  let thename := name
  let thename := if (s.flags &&& M.SET_DISABLED) ≠ 0 then DISABLED_RECORDER_NAME else thename
  let thename := if (s.flags &&& M.ONLY_ALERT) ≠ 0 then ALERT_RECORDER_NAME else thename
  map_find s.frm thename

/-- `feature_recorder_set::add_stats` (lines 100-106). `scanner_stats[bucket]`
creates a bucket with both counters zero when there is none; `p.seconds += seconds` is
the addition of `double`; `p.calls ++` wraps at `calls_range`.

The parameter `calls_range` is the number of values of the unsigned integer type of
`pstats::calls`, whose declaration is in a header that is not part of the sources
(`2^64` for a 64-bit counter). -/
def add_stats (calls_range : Nat) (s : feature_recorder_set) (bucket : String)
    (seconds : double) : feature_recorder_set :=
  let p := (map_find s.scanner_stats bucket).getD { seconds := double.zero, calls := 0 }
  let p' : pstats :=
    { seconds := double_add p.seconds seconds, calls := (p.calls + 1) % calls_range }
  { s with scanner_stats := map_assign s.scanner_stats bucket p' }

/-- `feature_recorder_set::get_stats` (lines 108-113): the arguments of the
callback invocations, in order. -/
def get_stats (s : feature_recorder_set) : List (String × Nat × double) :=
  s.scanner_stats.map (fun it => (it.1, it.2.calls, it.2.seconds))

/-- `feature_recorder_set::get_alert_recorder` (lines 138-141). -/
def get_alert_recorder (M : flag_bits) (s : feature_recorder_set) : Option Nat :=
  get_name M s ALERT_RECORDER_NAME

/-- `feature_recorder_set::check_previously_processed` (lines 144-154), over the
digest `hexdigest` of the buffer: the result and the set afterwards. -/
def check_previously_processed (hexdigest : List Nat → String) (s : feature_recorder_set)
    (buf : List Nat) : Bool × feature_recorder_set :=
  let hexhash := hexdigest buf
  if hexhash ∉ s.seen_set then
    (false, { s with seen_set := hexhash :: s.seen_set })
  else (true, s)

/-- A sequence of `create_name` calls, in order. -/
def create_names (M : flag_bits) (s : feature_recorder_set) (cs : List (String × Bool)) :
    feature_recorder_set :=
  cs.foldl (fun acc c => create_name M acc c.1 c.2) s

/-- The number of `open()` calls made on the recorder at `fr`. -/
def open_count (s : feature_recorder_set) (fr : Nat) : Nat :=
  s.calls.count (recorder_call.call_open fr)

/-- A sequence of `check_previously_processed` calls, in order: the results of the
calls and the set afterwards. -/
def check_all (hexdigest : List Nat → String) :
    feature_recorder_set → List (List Nat) → List Bool × feature_recorder_set
  | s, [] => ([], s)
  | s, buf :: rest =>
    ((check_previously_processed hexdigest s buf).1 ::
        (check_all hexdigest (check_previously_processed hexdigest s buf).2 rest).1,
      (check_all hexdigest (check_previously_processed hexdigest s buf).2 rest).2)

/-- The set `s` is what one of the two constructors returned. -/
def constructed (M : flag_bits) (s : feature_recorder_set) : Prop :=
  (∃ flags_ : Nat, ctor_flags M flags_ = some s) ∨
  (∃ (feature_files : List String) (i o : String) (c : Bool),
    ctor_files M feature_files i o c = some s)

/-- The set `s` is reached from a constructed set by a sequence of `create_name` calls. -/
def reachable (M : flag_bits) (s : feature_recorder_set) : Prop :=
  ∃ (s0 : feature_recorder_set) (cs : List (String × Bool)),
    constructed M s0 ∧ s = create_names M s0 cs

/-- The number of `flush()` calls in a list of recorder calls made on the recorder at `fr`. -/
def flush_count (calls : List recorder_call) (fr : Nat) : Nat :=
  calls.count (recorder_call.call_flush fr)

/-- The number of `close()` calls in a list of recorder calls made on the recorder at `fr`. -/
def close_count (calls : List recorder_call) (fr : Nat) : Nat :=
  calls.count (recorder_call.call_close fr)

/-! ### Locks

The methods once more, each with the sequence of its `cppmutex::lock` scopes and of
its accesses to the three containers, in program order, next to its result. -/

/-- The mutex members of the class: both constructors initialise `Mlock` and
`seen_set_lock` and no other mutex. -/
inductive mutex where
  | Mlock
  | seen_set_lock
  deriving DecidableEq

/-- The three containers of the class. -/
inductive container where
  | frm
  | seen_set
  | scanner_stats
  deriving DecidableEq

/-- What a method does to a mutex or a container: `acquire m` is the declaration
`cppmutex::lock lock(m)`, `release m` the end of its scope, `access c` a call of a
member of, or a step of an iterator over, the container `c`. -/
inductive sync_event where
  | acquire (m : mutex)
  | release (m : mutex)
  | access (c : container)
  deriving DecidableEq

/-- The mutexes held at each container access of an event sequence, given the mutexes
held at its start. -/
def held_at : List mutex → List sync_event → List (container × List mutex)
  | _, [] => []
  | held, sync_event.acquire m :: rest => held_at (m :: held) rest
  | held, sync_event.release m :: rest => held_at (held.erase m) rest
  | held, sync_event.access c :: rest => (c, held) :: held_at held rest

/-- The largest number of mutexes held at once in an event sequence, given the
mutexes held at its start. -/
def max_held : List mutex → List sync_event → Nat
  | held, [] => held.length
  | held, sync_event.acquire m :: rest => max held.length (max_held (m :: held) rest)
  | held, sync_event.release m :: rest => max held.length (max_held (held.erase m) rest)
  | held, sync_event.access _ :: rest => max_held held rest

/-- `get_name` (lines 82-97) with its events: the result, and the lock scope of
line 93 around the `frm.find` of line 94. -/
def get_name_traced (M : flag_bits) (s : feature_recorder_set) (name : String) :
    Option Nat × List sync_event :=
  let thename := name
  let thename := if (s.flags &&& M.SET_DISABLED) ≠ 0 then DISABLED_RECORDER_NAME else thename
  let thename := if (s.flags &&& M.ONLY_ALERT) ≠ 0 then ALERT_RECORDER_NAME else thename
  let ev := [sync_event.acquire mutex.Mlock]
  let it := map_find s.frm thename
  let ev := ev ++ [sync_event.access container.frm]
  (it, ev ++ [sync_event.release mutex.Mlock])

/-- `get_alert_recorder` (line 140) with its events: those of the `get_name` it calls. -/
def get_alert_recorder_traced (M : flag_bits) (s : feature_recorder_set) :
    Option Nat × List sync_event :=
  get_name_traced M s ALERT_RECORDER_NAME

/-- `has_name` (line 76) with its events: `frm.find`, no lock statement. -/
def has_name_traced (s : feature_recorder_set) (name : String) : Bool × List sync_event :=
  ((map_find s.frm name).isSome, [sync_event.access container.frm])

/-- `add_stats` (lines 100-106) with its events: the lock scope of line 102 around
`scanner_stats[bucket]` of line 103. -/
def add_stats_traced (calls_range : Nat) (s : feature_recorder_set) (bucket : String)
    (seconds : double) : feature_recorder_set × List sync_event :=
  let ev := [sync_event.acquire mutex.Mlock]
  let p := (map_find s.scanner_stats bucket).getD { seconds := double.zero, calls := 0 }
  let ev := ev ++ [sync_event.access container.scanner_stats]
  let p' : pstats :=
    { seconds := double_add p.seconds seconds, calls := (p.calls + 1) % calls_range }
  ({ s with scanner_stats := map_assign s.scanner_stats bucket p' },
    ev ++ [sync_event.release mutex.Mlock])

/-- `get_stats` (lines 108-113) with its events: `scanner_stats.begin()` and one
iterator step for each bucket, no lock statement. -/
def get_stats_traced (s : feature_recorder_set) :
    List (String × Nat × double) × List sync_event :=
  (s.scanner_stats.map (fun it => (it.1, it.2.calls, it.2.seconds)),
    sync_event.access container.scanner_stats ::
      s.scanner_stats.map (fun _ => sync_event.access container.scanner_stats))

/-- `check_previously_processed` (lines 144-154) with its events: the digest is
computed first, then the lock scope of line 148 around `seen_set.find` and, when the
digest is new, `seen_set.insert`. -/
def check_previously_processed_traced (hexdigest : List Nat → String)
    (s : feature_recorder_set) (buf : List Nat) :
    (Bool × feature_recorder_set) × List sync_event :=
  let hexhash := hexdigest buf
  let ev := [sync_event.acquire mutex.seen_set_lock, sync_event.access container.seen_set]
  if hexhash ∉ s.seen_set then
    ((false, { s with seen_set := hexhash :: s.seen_set }),
      ev ++ [sync_event.access container.seen_set, sync_event.release mutex.seen_set_lock])
  else ((true, s), ev ++ [sync_event.release mutex.seen_set_lock])

/-- `create_name` (lines 115-136) with its events: `frm.find`, then for a new name the
assignment `frm[name]` and, with a stop file, `frm[name_stopped]`; no lock statement. -/
def create_name_traced (M : flag_bits) (s : feature_recorder_set) (name : String)
    (create_stop_file : Bool) : feature_recorder_set × List sync_event :=
  let ev := [sync_event.access container.frm]
  if (map_find s.frm name).isSome then
    ({ s with cerr := s.cerr ++ [already_exists name] }, ev)
  else
    let fr := s.heap.length
    let s1 := { s with
      heap := s.heap ++ [feature_recorder.construct s.outdir s.input_fname name],
      frm := map_assign s.frm name fr }
    let ev := ev ++ [sync_event.access container.frm]
    let s2 :=
      if create_stop_file then
        let name_stopped := name ++ "_stopped"
        let sl := s1.heap.length
        { s1 with
          heap := set_stop_list
            (s1.heap ++ [feature_recorder.construct s1.outdir s1.input_fname name_stopped])
            fr sl,
          frm := map_assign s1.frm name_stopped sl }
      else s1
    let ev := if create_stop_file then ev ++ [sync_event.access container.frm] else ev
    (if (s2.flags &&& M.SET_DISABLED) ≠ 0 then s2
     else
      let s3 := { s2 with calls := s2.calls ++ [recorder_call.call_open fr] }
      match (s3.heap[fr]?).bind feature_recorder.stop_list_recorder with
      | some sl => { s3 with calls := s3.calls ++ [recorder_call.call_open sl] }
      | none => s3,
     ev)

/-- `flush_all` (lines 59-64) with its events: `frm.begin()` and one iterator step for
each entry, no lock statement. -/
def flush_all_traced (s : feature_recorder_set) : feature_recorder_set × List sync_event :=
  ({ s with calls := s.calls ++ (map_values s.frm).map recorder_call.call_flush },
    sync_event.access container.frm :: s.frm.map (fun _ => sync_event.access container.frm))

/-- `close_all` (lines 66-71) with its events: `frm.begin()` and one iterator step for
each entry, no lock statement. -/
def close_all_traced (s : feature_recorder_set) : feature_recorder_set × List sync_event :=
  ({ s with calls := s.calls ++ (map_values s.frm).map recorder_call.call_close },
    sync_event.access container.frm :: s.frm.map (fun _ => sync_event.access container.frm))

end feature_recorder_set

/-! ## Sample values -/

/-- Sample values of the three masks, pairwise-independent single bits. -/
def sample_bits : flag_bits := { ONLY_ALERT := 1, SET_DISABLED := 2, FLAG_DISABLED := 1 }

/-- The set made by the second constructor for no requested name. -/
def sample_alerts_set : feature_recorder_set :=
  feature_recorder_set.create_name sample_bits (feature_recorder_set.initial 0 "in" "out")
    ALERT_RECORDER_NAME false

/-- The set reached from `sample_alerts_set` by `create_name("email", true)`. -/
def sample_active_set : feature_recorder_set :=
  feature_recorder_set.create_names sample_bits sample_alerts_set [("email", true)]

/-- A sample digest: the buffer read as a string, one character for each byte. -/
def sample_hexdigest (buf : List Nat) : String := String.mk (buf.map Char.ofNat)

/-- The sample buffer `"AAAA"`. -/
def sample_buf_A : List Nat := [65, 65, 65, 65]

/-- The sample buffer `"BBBB"`. -/
def sample_buf_B : List Nat := [66, 66, 66, 66]

/-- The set made by the first constructor for the flags `2` with the sample masks. -/
def sample_disabled_set : feature_recorder_set :=
  { flags := 2, input_fname := "", outdir := "",
    frm := [(DISABLED_RECORDER_NAME, 0)], seen_set := [], scanner_stats := [],
    heap := [{ outdir := "", input_fname := "", name := DISABLED_RECORDER_NAME,
               flags := 1, stop_list_recorder := none }],
    calls := [], cerr := [] }

/-- The sample disabled set after `add_stats("scanner_email", 1/2)`. -/
def sample_stats_set : feature_recorder_set :=
  feature_recorder_set.add_stats (2 ^ 64) sample_disabled_set "scanner_email"
    (double.fin false (2 ^ 52) (-53))

/-- The `double` `0.5`. -/
def sample_half : double := double.fin false (2 ^ 52) (-53)

/-- The `double` `1.0`. -/
def sample_one : double := double.fin false (2 ^ 52) (-52)

/-- The `double` `9007199254740992.0`, which is `2^53`. -/
def sample_two_pow_53 : double := double.fin false (2 ^ 52) 1

end be13


namespace be13

theorem string_lt_iff (a b : String) : string_lt a b ↔ a < b :=
  String.lt_iff_toList_lt.symm

theorem string_lt_irrefl (a : String) : ¬ string_lt a a := by
  rw [string_lt_iff]; exact lt_irrefl a

theorem string_lt_trans {a b c : String} (h1 : string_lt a b) (h2 : string_lt b c) :
    string_lt a c := by
  rw [string_lt_iff] at *; exact lt_trans h1 h2

theorem string_lt_asymm {a b : String} (h1 : string_lt a b) : ¬ string_lt b a := by
  rw [string_lt_iff] at *; exact lt_asymm h1

theorem string_lt_trichotomy (a b : String) : string_lt a b ∨ a = b ∨ string_lt b a := by
  simp only [string_lt_iff]; exact lt_trichotomy a b

theorem list_lt_append_right (l : List Char) (c : Char) (r : List Char) :
    l < l ++ c :: r := by
  induction l with
  | nil => exact List.Lex.nil
  | cons a as ih => exact List.Lex.cons ih

theorem stopped_length (n : String) : (n ++ "_stopped").length = n.length + 8 := by
  rw [String.length_append]; rfl

theorem lt_stopped (n : String) : string_lt n (n ++ "_stopped") := by
  unfold string_lt
  rw [String.data_append]
  exact list_lt_append_right n.data _ _

theorem stopped_ne_self (n : String) : n ++ "_stopped" ≠ n := by
  intro h
  have := congrArg String.length h
  rw [stopped_length] at this
  omega

theorem stopped_ne_alerts (n : String) : n ++ "_stopped" ≠ ALERT_RECORDER_NAME := by
  intro h
  have := congrArg String.length h
  rw [stopped_length] at this
  have h6 : ALERT_RECORDER_NAME.length = 6 := by decide
  omega

theorem stopped_inj {n m : String} (h : n ++ "_stopped" = m ++ "_stopped") : n = m := by
  have hd := congrArg String.data h
  rw [String.data_append, String.data_append] at hd
  exact String.ext (List.append_cancel_right hd)


/-! ## Maps -/

theorem map_find_isSome_iff {β : Type} (m : List (String × β)) (k : String) :
    (map_find m k).isSome = true ↔ k ∈ map_keys m := by
  induction m with
  | nil => simp [map_find, map_keys]
  | cons kv rest ih =>
    obtain ⟨k', v⟩ := kv
    by_cases h : k' = k
    · simp [map_find, map_keys, h]
    · have h2 : ¬ k = k' := fun e => h e.symm
      simp only [map_keys] at ih
      simp [map_find, map_keys, h, h2, ih]

theorem map_find_eq_none_iff {β : Type} (m : List (String × β)) (k : String) :
    map_find m k = none ↔ k ∉ map_keys m := by
  rw [← map_find_isSome_iff]
  cases map_find m k <;> simp

theorem map_find_mem {β : Type} (m : List (String × β)) (k : String) (v : β)
    (h : map_find m k = some v) : (k, v) ∈ m := by
  induction m with
  | nil => simp [map_find] at h
  | cons kv rest ih =>
    obtain ⟨k', v'⟩ := kv
    by_cases hk : k' = k
    · subst hk
      simp [map_find] at h
      simp [h]
    · simp [map_find, hk] at h
      exact List.mem_cons_of_mem _ (ih h)

theorem map_find_assign_same {β : Type} (m : List (String × β)) (k : String) (v : β) :
    map_find (map_assign m k v) k = some v := by
  induction m with
  | nil => simp [map_assign, map_find]
  | cons kv rest ih =>
    obtain ⟨k', v'⟩ := kv
    by_cases h1 : string_lt k k'
    · simp [map_assign, h1, map_find]
    · by_cases h2 : k = k'
      · subst h2
        simp [map_assign, h1, map_find]
      · have h3 : ¬ k' = k := fun e => h2 e.symm
        simp [map_assign, h1, h2, map_find, h3, ih]

theorem map_find_assign_other {β : Type} (m : List (String × β)) (k x : String) (v : β)
    (hx : x ≠ k) : map_find (map_assign m k v) x = map_find m x := by
  have hx2 : ¬ k = x := fun e => hx e.symm
  induction m with
  | nil => simp [map_assign, map_find, hx2]
  | cons kv rest ih =>
    obtain ⟨k', v'⟩ := kv
    by_cases h1 : string_lt k k'
    · simp [map_assign, h1, map_find, hx2]
    · by_cases h2 : k = k'
      · subst h2
        simp [map_assign, h1, map_find, hx2]
      · simp [map_assign, h1, h2, map_find, ih]

theorem mem_keys_assign {β : Type} (m : List (String × β)) (k x : String) (v : β) :
    x ∈ map_keys (map_assign m k v) ↔ x = k ∨ x ∈ map_keys m := by
  rw [← map_find_isSome_iff, ← map_find_isSome_iff]
  by_cases hx : x = k
  · subst hx; simp [map_find_assign_same]
  · simp [map_find_assign_other m k x v hx, hx]

theorem length_assign_absent {β : Type} (m : List (String × β)) (k : String) (v : β)
    (hk : k ∉ map_keys m) : (map_assign m k v).length = m.length + 1 := by
  induction m with
  | nil => simp [map_assign]
  | cons kv rest ih =>
    obtain ⟨k', v'⟩ := kv
    have hne : ¬ k = k' := by
      intro e; apply hk; simp [map_keys, e]
    have hrest : k ∉ map_keys rest := by
      intro e; apply hk; simp only [map_keys] at e; simp [map_keys, e]
    by_cases h1 : string_lt k k'
    · simp [map_assign, h1]
    · simp [map_assign, h1, hne, ih hrest]

theorem values_assign_absent {β : Type} (m : List (String × β)) (k : String) (v : β)
    (hk : k ∉ map_keys m) : (map_values (map_assign m k v)).Perm (v :: map_values m) := by
  induction m with
  | nil => simp [map_assign, map_values]
  | cons kv rest ih =>
    obtain ⟨k', v'⟩ := kv
    have hne : ¬ k = k' := by
      intro e; apply hk; simp [map_keys, e]
    have hrest : k ∉ map_keys rest := by
      intro e; apply hk; simp only [map_keys] at e; simp [map_keys, e]
    by_cases h1 : string_lt k k'
    · simp [map_assign, h1, map_values]
    · have := ih hrest
      simp only [map_values] at this
      simp only [map_assign, h1, hne, map_values, if_false, List.map_cons]
      exact (List.Perm.cons v' this).trans (List.Perm.swap v v' _)

theorem count_keys_assign_other {β : Type} (m : List (String × β)) (k x : String) (v : β)
    (hx : x ≠ k) : (map_keys (map_assign m k v)).count x = (map_keys m).count x := by
  have hx2 : ¬ k = x := fun e => hx e.symm
  induction m with
  | nil => simp [map_assign, map_keys, List.count_cons, hx2]
  | cons kv rest ih =>
    obtain ⟨k', v'⟩ := kv
    simp only [map_keys] at ih
    by_cases h1 : string_lt k k'
    · simp [map_assign, h1, map_keys, List.count_cons, hx2]
    · by_cases h2 : k = k'
      · subst h2
        simp [map_assign, h1, map_keys, List.count_cons, hx2]
      · simp [map_assign, h1, h2, map_keys, List.count_cons, ih]

theorem count_keys_assign_absent {β : Type} (m : List (String × β)) (k : String) (v : β)
    (hk : k ∉ map_keys m) : (map_keys (map_assign m k v)).count k = 1 := by
  induction m with
  | nil => simp [map_assign, map_keys]
  | cons kv rest ih =>
    obtain ⟨k', v'⟩ := kv
    have hne : ¬ k = k' := by
      intro e; apply hk; simp [map_keys, e]
    have hne2 : ¬ k' = k := fun e => hne e.symm
    have hrest : k ∉ map_keys rest := by
      intro e; apply hk; simp only [map_keys] at e; simp [map_keys, e]
    have ih2 := ih hrest
    simp only [map_keys] at ih2 hrest
    by_cases h1 : string_lt k k'
    · have : List.count k (List.map Prod.fst rest) = 0 := List.count_eq_zero.mpr hrest
      simp [map_assign, h1, map_keys, List.count_cons, hne2, this]
    · simp [map_assign, h1, hne, map_keys, List.count_cons, hne2, ih2]

/-- The assignment keeps the keys of a `std::map` strictly ascending. -/
theorem map_sorted_assign {β : Type} (m : List (String × β)) (k : String) (v : β)
    (hs : map_sorted m) : map_sorted (map_assign m k v) := by
  induction m with
  | nil => simp [map_assign, map_sorted, map_keys]
  | cons kv rest ih =>
    obtain ⟨k', v'⟩ := kv
    simp only [map_sorted, map_keys, List.map_cons, List.pairwise_cons] at hs
    obtain ⟨hhead, htail⟩ := hs
    by_cases h1 : string_lt k k'
    · simp only [map_assign, h1, if_true, map_sorted, map_keys, List.map_cons,
        List.pairwise_cons]
      refine ⟨?_, hhead, htail⟩
      intro a ha
      rcases List.mem_cons.mp ha with e | e
      · rw [e]; exact h1
      · exact string_lt_trans h1 (hhead a e)
    · by_cases h2 : k = k'
      · subst h2
        simp only [map_assign, h1, if_false, if_true, map_sorted, map_keys, List.map_cons,
          List.pairwise_cons]
        exact ⟨hhead, htail⟩
      · have h3 : string_lt k' k := by
          rcases string_lt_trichotomy k k' with h | h | h
          · exact absurd h h1
          · exact absurd h h2
          · exact h
        have ih2 := ih htail
        simp only [map_assign, h1, h2, if_false, map_sorted, map_keys, List.map_cons,
          List.pairwise_cons]
        refine ⟨?_, ih2⟩
        intro a ha
        have ha2 : a ∈ map_keys (map_assign rest k v) := ha
        rcases (mem_keys_assign rest k a v).mp ha2 with e | e
        · rw [e]; exact h3
        · exact hhead a e

theorem map_sorted_nodup {β : Type} (m : List (String × β)) (hs : map_sorted m) :
    (map_keys m).Nodup := by
  unfold map_sorted at hs
  refine hs.imp ?_
  intro a b h e
  rw [e] at h
  exact string_lt_irrefl b h

namespace feature_recorder_set

/-! ## `create_name` in closed form -/

theorem getElem?_fresh (heap : List feature_recorder) (r r2 : feature_recorder) :
    (heap ++ [r, r2])[heap.length]? = some r := by
  rw [List.getElem?_append_right (le_refl _)]
  simp

theorem set_stop_list_fresh (heap : List feature_recorder) (r r2 : feature_recorder) (sl : Nat) :
    set_stop_list (heap ++ [r, r2]) heap.length sl =
      heap ++ [{ r with stop_list_recorder := some sl }, r2] := by
  unfold set_stop_list
  rw [getElem?_fresh]
  simp [List.set_append]

theorem create_name_present (M : flag_bits) (s : feature_recorder_set) (n : String) (c : Bool)
    (h : has_name s n = true) :
    create_name M s n c = { s with cerr := s.cerr ++ [already_exists n] } := by
  unfold has_name at h
  simp [create_name, h]

theorem create_name_absent_false (M : flag_bits) (s : feature_recorder_set) (n : String)
    (h : has_name s n = false) :
    create_name M s n false =
      { s with
        heap := s.heap ++ [feature_recorder.construct s.outdir s.input_fname n],
        frm := map_assign s.frm n s.heap.length,
        calls := if (s.flags &&& M.SET_DISABLED) ≠ 0 then s.calls
                 else s.calls ++ [recorder_call.call_open s.heap.length] } := by
  unfold has_name at h
  by_cases hd : (s.flags &&& M.SET_DISABLED) = 0
  · simp [create_name, h, hd, feature_recorder.construct]
  · simp [create_name, h, hd]

theorem create_name_absent_true (M : flag_bits) (s : feature_recorder_set) (n : String)
    (h : has_name s n = false) :
    create_name M s n true =
      { s with
        heap := s.heap ++
          [{ outdir := s.outdir, input_fname := s.input_fname, name := n, flags := 0,
             stop_list_recorder := some (s.heap.length + 1) },
           feature_recorder.construct s.outdir s.input_fname (n ++ "_stopped")],
        frm := map_assign (map_assign s.frm n s.heap.length) (n ++ "_stopped")
                 (s.heap.length + 1),
        calls := if (s.flags &&& M.SET_DISABLED) ≠ 0 then s.calls
                 else s.calls ++ [recorder_call.call_open s.heap.length,
                                  recorder_call.call_open (s.heap.length + 1)] } := by
  unfold has_name at h
  by_cases hd : (s.flags &&& M.SET_DISABLED) = 0
  · simp [create_name, h, hd, set_stop_list_fresh, feature_recorder.construct,
      List.getElem_append_right]
  · simp [create_name, h, hd, set_stop_list_fresh, feature_recorder.construct]

theorem has_name_iff (s : feature_recorder_set) (n : String) :
    has_name s n = true ↔ n ∈ map_keys s.frm := by
  unfold has_name; exact map_find_isSome_iff s.frm n

theorem has_name_false_iff (s : feature_recorder_set) (n : String) :
    has_name s n = false ↔ n ∉ map_keys s.frm := by
  rw [← has_name_iff]; cases has_name s n <;> simp

theorem create_name_flags (M : flag_bits) (s : feature_recorder_set) (n : String) (c : Bool) :
    (create_name M s n c).flags = s.flags := by
  cases h : has_name s n
  · cases c
    · rw [create_name_absent_false M s n h]
    · rw [create_name_absent_true M s n h]
  · rw [create_name_present M s n c h]

theorem create_name_find_self (M : flag_bits) (s : feature_recorder_set) (n : String)
    (c : Bool) : map_find (create_name M s n c).frm n =
      if has_name s n then map_find s.frm n else some s.heap.length := by
  cases h : has_name s n
  · cases c
    · rw [create_name_absent_false M s n h]
      simp [map_find_assign_same]
    · rw [create_name_absent_true M s n h]
      simp [map_find_assign_other _ _ _ _ (stopped_ne_self n).symm, map_find_assign_same]
  · rw [create_name_present M s n c h]
    simp

theorem mem_keys_create_name (M : flag_bits) (s : feature_recorder_set) (n x : String)
    (c : Bool) : x ∈ map_keys (create_name M s n c).frm ↔
      x ∈ map_keys s.frm ∨ x = n ∨
        (c = true ∧ n ∉ map_keys s.frm ∧ x = n ++ "_stopped") := by
  cases h : has_name s n
  · have hn := (has_name_false_iff s n).mp h
    cases c
    · rw [create_name_absent_false M s n h]
      simp only [mem_keys_assign]
      simp; tauto
    · rw [create_name_absent_true M s n h]
      simp only [mem_keys_assign]
      simp [hn]; tauto
  · have hn := (has_name_iff s n).mp h
    rw [create_name_present M s n c h]
    simp only [hn, not_true_eq_false, false_and, and_false, or_false]
    constructor
    · intro hx; exact Or.inl hx
    · rintro (hx | hx)
      · exact hx
      · rw [hx]; exact hn

theorem has_name_create_name_mono (M : flag_bits) (s : feature_recorder_set) (n x : String)
    (c : Bool) (hx : has_name s x = true) : has_name (create_name M s n c) x = true := by
  rw [has_name_iff] at *
  exact (mem_keys_create_name M s n x c).mpr (Or.inl hx)

theorem has_name_create_name_self (M : flag_bits) (s : feature_recorder_set) (n : String)
    (c : Bool) : has_name (create_name M s n c) n = true := by
  rw [has_name_iff]
  exact (mem_keys_create_name M s n n c).mpr (Or.inr (Or.inl rfl))

theorem create_names_flags (M : flag_bits) (cs : List (String × Bool))
    (s : feature_recorder_set) : (create_names M s cs).flags = s.flags := by
  induction cs generalizing s with
  | nil => rfl
  | cons c rest ih =>
    simp only [create_names, List.foldl_cons] at ih ⊢
    rw [ih, create_name_flags]

theorem has_name_create_names_mono (M : flag_bits) (cs : List (String × Bool))
    (s : feature_recorder_set) (x : String) (hx : has_name s x = true) :
    has_name (create_names M s cs) x = true := by
  induction cs generalizing s with
  | nil => exact hx
  | cons c rest ih =>
    simp only [create_names, List.foldl_cons] at ih ⊢
    exact ih _ (has_name_create_name_mono M s c.1 x c.2 hx)

/-- The loop of the second constructor as a sequence of `create_name` calls. -/
theorem ctor_files_eq (M : flag_bits) (feature_files : List String) (i o : String)
    (c : Bool) : ctor_files M feature_files i o c =
      some (create_names M (create_name M (initial 0 i o) ALERT_RECORDER_NAME false)
        (feature_files.map (fun it => (it, c)))) := by
  simp [ctor_files, initial, create_names, List.foldl_map]

/-- The set made by the first constructor when `SET_DISABLED` is in the flags. -/
theorem ctor_flags_disabled (M : flag_bits) (flags_ : Nat)
    (hd : (flags_ &&& M.SET_DISABLED) ≠ 0) :
    ctor_flags M flags_ = some
      { flags := flags_, input_fname := "", outdir := "",
        frm := [(DISABLED_RECORDER_NAME, 0)], seen_set := [], scanner_stats := [],
        heap := [{ outdir := "", input_fname := "", name := DISABLED_RECORDER_NAME,
                   flags := 0 ||| M.FLAG_DISABLED, stop_list_recorder := none }],
        calls := [], cerr := [] } := by
  simp [ctor_flags, initial, hd, create_name, map_find, map_assign, set_flag_at,
    feature_recorder.construct, feature_recorder.set_flag]

theorem count_keys_create_name_self (M : flag_bits) (s : feature_recorder_set) (n : String)
    (c : Bool) (hnd : (map_keys s.frm).Nodup) :
    (map_keys (create_name M s n c).frm).count n = 1 := by
  cases h : has_name s n
  · have hn := (has_name_false_iff s n).mp h
    cases c
    · rw [create_name_absent_false M s n h]
      exact count_keys_assign_absent s.frm n _ hn
    · rw [create_name_absent_true M s n h]
      show (map_keys (map_assign (map_assign s.frm n s.heap.length) (n ++ "_stopped")
        (s.heap.length + 1))).count n = 1
      rw [count_keys_assign_other _ _ _ _ (stopped_ne_self n).symm]
      exact count_keys_assign_absent s.frm n _ hn
  · have hn := (has_name_iff s n).mp h
    rw [create_name_present M s n c h]
    exact List.count_eq_one_of_mem hnd hn

theorem create_name_sorted (M : flag_bits) (s : feature_recorder_set) (n : String) (c : Bool)
    (hs : map_sorted s.frm) : map_sorted (create_name M s n c).frm := by
  cases h : has_name s n
  · cases c
    · rw [create_name_absent_false M s n h]
      exact map_sorted_assign _ _ _ hs
    · rw [create_name_absent_true M s n h]
      exact map_sorted_assign _ _ _ (map_sorted_assign _ _ _ hs)
  · rw [create_name_present M s n c h]
    exact hs

theorem create_names_sorted (M : flag_bits) (cs : List (String × Bool))
    (s : feature_recorder_set) (hs : map_sorted s.frm) :
    map_sorted (create_names M s cs).frm := by
  induction cs generalizing s with
  | nil => exact hs
  | cons c rest ih =>
    simp only [create_names, List.foldl_cons] at ih ⊢
    exact ih _ (create_name_sorted M s c.1 c.2 hs)

/-! ## The loop of the second constructor -/

theorem length_create_name (M : flag_bits) (s : feature_recorder_set) (n : String) (c : Bool)
    (hn : n ∉ map_keys s.frm) (hst : n ++ "_stopped" ∉ map_keys s.frm) :
    (create_name M s n c).frm.length = s.frm.length + (if c then 2 else 1) := by
  have h := (has_name_false_iff s n).mpr hn
  cases c
  · rw [create_name_absent_false M s n h]
    exact length_assign_absent s.frm n _ hn
  · rw [create_name_absent_true M s n h]
    show (map_assign (map_assign s.frm n s.heap.length) (n ++ "_stopped")
      (s.heap.length + 1)).length = s.frm.length + 2
    have hst2 : n ++ "_stopped" ∉ map_keys (map_assign s.frm n s.heap.length) := by
      rw [mem_keys_assign]
      rintro (e | e)
      · exact stopped_ne_self n e
      · exact hst e
    rw [length_assign_absent _ _ _ hst2, length_assign_absent _ _ _ hn]

theorem create_names_keys (M : flag_bits) (c : Bool) (L : List String) :
    ∀ s : feature_recorder_set, L.Nodup →
      (∀ n ∈ L, n ∉ map_keys s.frm) →
      (∀ n ∈ L, n ++ "_stopped" ∉ map_keys s.frm) →
      (∀ n ∈ L, n ++ "_stopped" ∉ L) →
      (∀ k, k ∈ map_keys (create_names M s (L.map (fun it => (it, c)))).frm ↔
        k ∈ map_keys s.frm ∨ k ∈ L ∨ (c = true ∧ ∃ n ∈ L, k = n ++ "_stopped")) ∧
      (create_names M s (L.map (fun it => (it, c)))).frm.length =
        s.frm.length + (if c then 2 * L.length else L.length) := by
  induction L with
  | nil =>
    intro s _ _ _ _
    simp [create_names]
  | cons n R ih =>
    intro s hnd hfresh hfresh2 hpair
    have hnR : n ∉ R := (List.nodup_cons.mp hnd).1
    have hndR : R.Nodup := (List.nodup_cons.mp hnd).2
    have hn : n ∉ map_keys s.frm := hfresh n (List.mem_cons_self n R)
    have hst : n ++ "_stopped" ∉ map_keys s.frm := hfresh2 n (List.mem_cons_self n R)
    have hkeys := mem_keys_create_name M s n
    have h1 : ∀ m ∈ R, m ∉ map_keys (create_name M s n c).frm := by
      intro m hm hmem
      rcases (hkeys m c).mp hmem with e | e | ⟨_, _, e⟩
      · exact hfresh m (List.mem_cons_of_mem n hm) e
      · exact hnR (e ▸ hm)
      · exact hpair n (List.mem_cons_self n R) (e ▸ List.mem_cons_of_mem n hm)
    have h2 : ∀ m ∈ R, m ++ "_stopped" ∉ map_keys (create_name M s n c).frm := by
      intro m hm hmem
      rcases (hkeys (m ++ "_stopped") c).mp hmem with e | e | ⟨_, _, e⟩
      · exact hfresh2 m (List.mem_cons_of_mem n hm) e
      · exact hpair m (List.mem_cons_of_mem n hm) (e ▸ List.mem_cons_self n R)
      · exact hnR (stopped_inj e ▸ hm)
    have h3 : ∀ m ∈ R, m ++ "_stopped" ∉ R := by
      intro m hm hmem
      exact hpair m (List.mem_cons_of_mem n hm) (List.mem_cons_of_mem n hmem)
    obtain ⟨ihk, ihl⟩ := ih (create_name M s n c) hndR h1 h2 h3
    have hfold : create_names M s ((n :: R).map (fun it => (it, c))) =
        create_names M (create_name M s n c) (R.map (fun it => (it, c))) := rfl
    rw [hfold]
    constructor
    · intro k
      rw [ihk k, hkeys k c]
      simp only [List.mem_cons, exists_eq_or_imp, hn, not_false_eq_true, true_and]
      tauto
    · rw [ihl, length_create_name M s n c hn hst]
      cases c <;> simp [List.length_cons] <;> omega

theorem count_open_range (n fr : Nat) :
    ((List.range n).map recorder_call.call_open).count (recorder_call.call_open fr) =
      if fr < n then 1 else 0 := by
  induction n with
  | zero => simp
  | succ k ih =>
    rw [List.range_succ, List.map_append, List.count_append, ih]
    by_cases h1 : fr < k
    · have h2 : ¬ k = fr := by omega
      have h3 : fr < k + 1 := by omega
      simp [h1, h2, h3, List.count_cons]
    · by_cases h2 : k = fr
      · subst h2
        simp [List.count_cons]
      · have h3 : ¬ fr < k + 1 := by omega
        simp [h1, h2, h3, List.count_cons]

theorem create_name_opens_step (M : flag_bits) (s : feature_recorder_set) (n : String)
    (c : Bool) (hflag : (s.flags &&& M.SET_DISABLED) = 0)
    (hcalls : s.calls = (List.range s.heap.length).map recorder_call.call_open)
    (hperm : (map_values s.frm).Perm (List.range s.heap.length))
    (hst : n ++ "_stopped" ∉ map_keys s.frm) :
    (create_name M s n c).calls =
      (List.range (create_name M s n c).heap.length).map recorder_call.call_open ∧
    (map_values (create_name M s n c).frm).Perm
      (List.range (create_name M s n c).heap.length) := by
  cases h : has_name s n
  · have hn := (has_name_false_iff s n).mp h
    have hp1 : (map_values (map_assign s.frm n s.heap.length)).Perm
        (List.range (s.heap.length + 1)) := by
      rw [List.range_succ]
      exact ((values_assign_absent s.frm n _ hn).trans (List.Perm.cons _ hperm)).trans
        (List.perm_append_singleton _ _).symm
    cases c
    · rw [create_name_absent_false M s n h]
      constructor
      · simp [hflag, hcalls, List.range_succ]
      · simpa using hp1
    · rw [create_name_absent_true M s n h]
      have hst2 : n ++ "_stopped" ∉ map_keys (map_assign s.frm n s.heap.length) := by
        rw [mem_keys_assign]
        rintro (e | e)
        · exact stopped_ne_self n e
        · exact hst e
      constructor
      · simp [hflag, hcalls, List.range_succ]
      · show (map_values (map_assign (map_assign s.frm n s.heap.length) (n ++ "_stopped")
          (s.heap.length + 1))).Perm (List.range (s.heap ++ [_, _]).length)
        have hlen : (s.heap ++
            [({ outdir := s.outdir, input_fname := s.input_fname, name := n, flags := 0,
                stop_list_recorder := some (s.heap.length + 1) } : feature_recorder),
             feature_recorder.construct s.outdir s.input_fname (n ++ "_stopped")]).length =
            s.heap.length + 1 + 1 := by simp
        rw [hlen, List.range_succ]
        exact ((values_assign_absent _ _ _ hst2).trans (List.Perm.cons _ hp1)).trans
          (List.perm_append_singleton _ _).symm
  · rw [create_name_present M s n c h]
    exact ⟨hcalls, hperm⟩

theorem create_names_opens (M : flag_bits) (c : Bool) (L : List String) :
    ∀ s : feature_recorder_set, List.Pairwise string_lt L →
      (s.flags &&& M.SET_DISABLED) = 0 →
      s.calls = (List.range s.heap.length).map recorder_call.call_open →
      (map_values s.frm).Perm (List.range s.heap.length) →
      (∀ x ∈ L, x ++ "_stopped" ∉ map_keys s.frm) →
      (create_names M s (L.map (fun it => (it, c)))).calls =
        (List.range (create_names M s (L.map (fun it => (it, c)))).heap.length).map
          recorder_call.call_open ∧
      (map_values (create_names M s (L.map (fun it => (it, c)))).frm).Perm
        (List.range (create_names M s (L.map (fun it => (it, c)))).heap.length) := by
  induction L with
  | nil =>
    intro s _ _ hcalls hperm _
    exact ⟨hcalls, hperm⟩
  | cons n R ih =>
    intro s hL hflag hcalls hperm hfresh
    have hnR : ∀ x ∈ R, string_lt n x := (List.pairwise_cons.mp hL).1
    have hR : List.Pairwise string_lt R := (List.pairwise_cons.mp hL).2
    obtain ⟨hc1, hp1⟩ := create_name_opens_step M s n c hflag hcalls hperm
      (hfresh n (List.mem_cons_self n R))
    have hfresh1 : ∀ x ∈ R, x ++ "_stopped" ∉ map_keys (create_name M s n c).frm := by
      intro x hx hmem
      rcases (mem_keys_create_name M s n (x ++ "_stopped") c).mp hmem with e | e | ⟨_, _, e⟩
      · exact hfresh x (List.mem_cons_of_mem n hx) e
      · have h1 : string_lt n x := hnR x hx
        have h2 : string_lt x (x ++ "_stopped") := lt_stopped x
        rw [e] at h2
        exact string_lt_asymm h1 h2
      · have h1 : string_lt n x := hnR x hx
        rw [stopped_inj e] at h1
        exact string_lt_irrefl n h1
    have hflag1 : ((create_name M s n c).flags &&& M.SET_DISABLED) = 0 := by
      rw [create_name_flags]; exact hflag
    exact ih (create_name M s n c) hR hflag1 hc1 hp1 hfresh1

theorem has_name_create_names_of_mem (M : flag_bits) (cs : List (String × Bool)) :
    ∀ (s : feature_recorder_set) (n : String), n ∈ cs.map Prod.fst →
      has_name (create_names M s cs) n = true := by
  induction cs with
  | nil => intro s n hn; simp at hn
  | cons c rest ih =>
    intro s n hn
    have hfold : create_names M s (c :: rest) = create_names M (create_name M s c.1 c.2) rest :=
      rfl
    rw [hfold]
    simp only [List.map_cons, List.mem_cons] at hn
    rcases hn with e | e
    · rw [e]
      exact has_name_create_names_mono M rest _ _ (has_name_create_name_self M s c.1 c.2)
    · exact ih _ n e

theorem mem_keys_create_names_sub (M : flag_bits) (c : Bool) (L : List String) :
    ∀ (s : feature_recorder_set) (k : String),
      k ∈ map_keys (create_names M s (L.map (fun it => (it, c)))).frm →
      k ∈ map_keys s.frm ∨ k ∈ L ∨ ∃ m ∈ L, k = m ++ "_stopped" := by
  induction L with
  | nil => intro s k hk; exact Or.inl hk
  | cons a R ih =>
    intro s k hk
    have hfold : create_names M s ((a :: R).map (fun it => (it, c))) =
        create_names M (create_name M s a c) (R.map (fun it => (it, c))) := rfl
    rw [hfold] at hk
    rcases ih (create_name M s a c) k hk with e | e | ⟨m, hm, e⟩
    · rcases (mem_keys_create_name M s a k c).mp e with e2 | e2 | ⟨_, _, e2⟩
      · exact Or.inl e2
      · exact Or.inr (Or.inl (e2 ▸ List.mem_cons_self a R))
      · exact Or.inr (Or.inr ⟨a, List.mem_cons_self a R, e2⟩)
    · exact Or.inr (Or.inl (List.mem_cons_of_mem a e))
    · exact Or.inr (Or.inr ⟨m, List.mem_cons_of_mem a hm, e⟩)

/-- On every set made by the first constructor from flags with both `SET_DISABLED` and
`ONLY_ALERT` set, whatever the values of the two masks, `get_name` is the null pointer
for every name. -/
theorem get_name_both_flags_general (M : flag_bits) (flags_ : Nat)
    (hd : (flags_ &&& M.SET_DISABLED) ≠ 0) (ha : (flags_ &&& M.ONLY_ALERT) ≠ 0) :
    ∃ s, ctor_flags M flags_ = some s ∧ ∀ n : String, get_name M s n = none := by
  refine ⟨_, ctor_flags_disabled M flags_ hd, ?_⟩
  intro n
  have hne : ¬ DISABLED_RECORDER_NAME = ALERT_RECORDER_NAME := by decide
  simp [get_name, ha, map_find, hne]

/-! ## The mode gate of `get_name` -/

/-- C1 (the code at the failing input). With the masks `ONLY_ALERT = 1` and
`SET_DISABLED = 2`, the first constructor run on the flags `3` (both bits set) gives a
set whose registry binds `"disabled"` to the recorder at address `0`, and on this set
`get_name("email")` is the null pointer: the second test of `get_name` replaces the
name `"disabled"` chosen by the first with `"alerts"`, which is not registered. -/
theorem get_name_both_flags_null :
    ∃ s, ctor_flags sample_bits 3 = some s ∧
      (s.flags &&& sample_bits.SET_DISABLED) ≠ 0 ∧
      (s.flags &&& sample_bits.ONLY_ALERT) ≠ 0 ∧
      map_find s.frm DISABLED_RECORDER_NAME = some 0 ∧
      get_name sample_bits s "email" = none :=
  ⟨_, ctor_flags_disabled sample_bits 3 (by decide), by decide, by decide, by decide,
    by decide⟩

/-- C2. For every flags value with `SET_DISABLED` set and `ONLY_ALERT` clear, the first
constructor returns a set on which `get_name(n)` is, for every name `n`, one and the
same non-null recorder: the one bound to `"disabled"` in the registry, and that
recorder has the flag `FLAG_DISABLED` set. -/
theorem get_name_disabled_set (M : flag_bits) (flags_ : Nat)
    (hd : (flags_ &&& M.SET_DISABLED) ≠ 0) (ha : (flags_ &&& M.ONLY_ALERT) = 0)
    (hf : M.FLAG_DISABLED ≠ 0) :
    ∃ s fr r, ctor_flags M flags_ = some s ∧
      map_find s.frm DISABLED_RECORDER_NAME = some fr ∧
      s.heap[fr]? = some r ∧ r.flag_set M.FLAG_DISABLED = true ∧
      ∀ n : String, get_name M s n = some fr := by
  refine ⟨_, 0, _, ctor_flags_disabled M flags_ hd, ?_, rfl, ?_, ?_⟩
  · simp [map_find]
  · simpa [feature_recorder.flag_set] using hf
  · intro n
    simp [get_name, hd, ha, map_find]

theorem get_name_disabled_set_witness :
    (2 &&& sample_bits.SET_DISABLED) ≠ 0 ∧ (2 &&& sample_bits.ONLY_ALERT) = 0 ∧
    sample_bits.FLAG_DISABLED ≠ 0 ∧
    ∃ s fr r, ctor_flags sample_bits 2 = some s ∧
      map_find s.frm DISABLED_RECORDER_NAME = some fr ∧
      s.heap[fr]? = some r ∧ r.flag_set sample_bits.FLAG_DISABLED = true ∧
      ∀ n : String, get_name sample_bits s n = some fr :=
  ⟨by decide, by decide, by decide,
    get_name_disabled_set sample_bits 2 (by decide) (by decide) (by decide)⟩

/-- C3. For every set of requested names and either value of `create_stop_files` the
second constructor returns a set `s`; when the flags of `s` are then any value with
`ONLY_ALERT` set and `SET_DISABLED` clear, `get_name(n)` is for every name `n` the
same non-null recorder as `get_alert_recorder()`, the one bound to `"alerts"`. -/
theorem get_name_alerts_only (M : flag_bits) (feature_files : List String) (i o : String)
    (c : Bool) (f : Nat) (ha : (f &&& M.ONLY_ALERT) ≠ 0) (_hd : (f &&& M.SET_DISABLED) = 0) :
    ∃ s fr, ctor_files M feature_files i o c = some s ∧
      map_find s.frm ALERT_RECORDER_NAME = some fr ∧
      get_alert_recorder M { s with flags := f } = some fr ∧
      ∀ n : String, get_name M { s with flags := f } n = some fr := by
  have hhas : has_name (create_names M (create_name M (initial 0 i o) ALERT_RECORDER_NAME false)
      (feature_files.map (fun it => (it, c)))) ALERT_RECORDER_NAME = true :=
    has_name_create_names_mono M _ _ _ (has_name_create_name_self M _ _ _)
  unfold has_name at hhas
  obtain ⟨fr, hfr⟩ := Option.isSome_iff_exists.mp hhas
  refine ⟨_, fr, ctor_files_eq M feature_files i o c, hfr, ?_, ?_⟩
  · simp [get_alert_recorder, get_name, ha, hfr]
  · intro n
    simp [get_name, ha, hfr]

theorem get_name_alerts_only_witness :
    (1 &&& sample_bits.ONLY_ALERT) ≠ 0 ∧ (1 &&& sample_bits.SET_DISABLED) = 0 ∧
    ∃ s fr, ctor_files sample_bits ["email"] "in" "out" false = some s ∧
      map_find s.frm ALERT_RECORDER_NAME = some fr ∧
      get_alert_recorder sample_bits { s with flags := 1 } = some fr ∧
      ∀ n : String, get_name sample_bits { s with flags := 1 } n = some fr :=
  ⟨by decide, by decide,
    get_name_alerts_only sample_bits ["email"] "in" "out" false 1 (by decide) (by decide)⟩

/-- C4. On every set with neither `SET_DISABLED` nor `ONLY_ALERT` in its flags,
`get_name(n)` is the registry lookup of `n` itself: it is the recorder bound to `n`
when `has_name(n)` holds and the null pointer when it does not, so it is non-null
exactly when `has_name(n)` holds. -/
theorem get_name_ungated (M : flag_bits) (s : feature_recorder_set) (n : String)
    (hd : (s.flags &&& M.SET_DISABLED) = 0) (ha : (s.flags &&& M.ONLY_ALERT) = 0) :
    get_name M s n = map_find s.frm n ∧
    (has_name s n = true → ∃ fr, get_name M s n = some fr ∧ (n, fr) ∈ s.frm) ∧
    (has_name s n = false → get_name M s n = none) ∧
    ((get_name M s n).isSome = has_name s n) := by
  have hg : get_name M s n = map_find s.frm n := by simp [get_name, hd, ha]
  refine ⟨hg, ?_, ?_, ?_⟩
  · intro h
    unfold has_name at h
    obtain ⟨fr, hfr⟩ := Option.isSome_iff_exists.mp h
    exact ⟨fr, hg.trans hfr, map_find_mem s.frm n fr hfr⟩
  · intro h
    unfold has_name at h
    rw [hg]
    cases hm : map_find s.frm n
    · rfl
    · rw [hm] at h; simp at h
  · rw [hg]; rfl

theorem get_name_ungated_witness :
    ctor_files sample_bits ["email"] "in" "out" true = some sample_active_set ∧
    (sample_active_set.flags &&& sample_bits.SET_DISABLED) = 0 ∧
    (sample_active_set.flags &&& sample_bits.ONLY_ALERT) = 0 ∧
    has_name sample_active_set "email" = true ∧
    get_name sample_bits sample_active_set "email" = some 1 ∧
    has_name sample_active_set "url" = false ∧
    get_name sample_bits sample_active_set "url" = none ∧
    (get_name sample_bits sample_active_set "email" =
        map_find sample_active_set.frm "email" ∧
      (has_name sample_active_set "email" = true →
        ∃ fr, get_name sample_bits sample_active_set "email" = some fr ∧
          ("email", fr) ∈ sample_active_set.frm) ∧
      (has_name sample_active_set "email" = false →
        get_name sample_bits sample_active_set "email" = none) ∧
      ((get_name sample_bits sample_active_set "email").isSome =
        has_name sample_active_set "email")) ∧
    (get_name sample_bits sample_active_set "url" =
        map_find sample_active_set.frm "url" ∧
      (has_name sample_active_set "url" = true →
        ∃ fr, get_name sample_bits sample_active_set "url" = some fr ∧
          ("url", fr) ∈ sample_active_set.frm) ∧
      (has_name sample_active_set "url" = false →
        get_name sample_bits sample_active_set "url" = none) ∧
      ((get_name sample_bits sample_active_set "url").isSome =
        has_name sample_active_set "url")) :=
  ⟨by decide, by decide, by decide, by decide, by decide, by decide, by decide,
    get_name_ungated sample_bits sample_active_set "email" (by decide) (by decide),
    get_name_ungated sample_bits sample_active_set "url" (by decide) (by decide)⟩

/-! ## Registration -/

/-- C5. A call `create_name(n, c)` for a name `n` that is already registered returns
and changes nothing but `std::cerr`, which receives the diagnostic: registry, heap of
recorders and log of recorder calls are the same, so no recorder is created, none is
opened and no `n + "_stopped"` entry is added. Hence, from every state whose registry
is a well-formed `std::map`, two calls `create_name(n, c)`, `create_name(n, c')` in a
row leave exactly one registry entry for `n`, bound as after the first call (to the
recorder the first call allocated, when `n` was not registered before it). -/
theorem create_name_duplicate (M : flag_bits) (s : feature_recorder_set) (n : String)
    (c c' : Bool) (hs : map_sorted s.frm) :
    (has_name s n = true →
      create_name M s n c = { s with cerr := s.cerr ++ [already_exists n] }) ∧
    create_name M (create_name M s n c) n c' =
      { create_name M s n c with
        cerr := (create_name M s n c).cerr ++ [already_exists n] } ∧
    (map_keys (create_name M (create_name M s n c) n c').frm).count n = 1 ∧
    (has_name s n = false →
      map_find (create_name M (create_name M s n c) n c').frm n = some s.heap.length) := by
  have h2 : create_name M (create_name M s n c) n c' =
      { create_name M s n c with
        cerr := (create_name M s n c).cerr ++ [already_exists n] } :=
    create_name_present M _ n c' (has_name_create_name_self M s n c)
  refine ⟨create_name_present M s n c, h2, ?_, ?_⟩
  · rw [h2]
    exact count_keys_create_name_self M s n c (map_sorted_nodup s.frm hs)
  · intro hn
    rw [h2]
    show map_find (create_name M s n c).frm n = some s.heap.length
    rw [create_name_find_self, hn]
    rfl

theorem create_name_duplicate_witness :
    map_sorted (initial 0 "in" "out").frm ∧
    (has_name (initial 0 "in" "out") "email" = true →
      create_name sample_bits (initial 0 "in" "out") "email" true =
        { initial 0 "in" "out" with
          cerr := (initial 0 "in" "out").cerr ++ [already_exists "email"] }) ∧
    create_name sample_bits (create_name sample_bits (initial 0 "in" "out") "email" true)
        "email" false =
      { create_name sample_bits (initial 0 "in" "out") "email" true with
        cerr := (create_name sample_bits (initial 0 "in" "out") "email" true).cerr ++
          [already_exists "email"] } ∧
    (map_keys (create_name sample_bits
      (create_name sample_bits (initial 0 "in" "out") "email" true) "email" false).frm).count
        "email" = 1 ∧
    (has_name (initial 0 "in" "out") "email" = false →
      map_find (create_name sample_bits
        (create_name sample_bits (initial 0 "in" "out") "email" true) "email" false).frm
          "email" = some (initial 0 "in" "out").heap.length) :=
  ⟨by decide,
    create_name_duplicate sample_bits (initial 0 "in" "out") "email" true false (by decide)⟩

/-- C6 (the code at the failing input). On the set made by the second constructor for
no requested name, `create_name("a_stopped", false)` binds `"a_stopped"` to the
recorder at address `1` and opens it. The call `create_name("a", true)` that follows
finds `"a"` absent and assigns `frm["a_stopped"]` without a test: `"a_stopped"` is
now bound to the new recorder at address `3`, the recorder at `1` is bound to no name
any more, and `close_all` closes the recorders at `2`, `3` and `0` only. -/
theorem create_name_rebinds_stopped :
    ∃ s0, ctor_files sample_bits [] "in" "out" false = some s0 ∧
      s0.frm = [("alerts", 0)] ∧
      has_name (create_name sample_bits s0 "a_stopped" false) "a" = false ∧
      map_find (create_name sample_bits s0 "a_stopped" false).frm "a_stopped" = some 1 ∧
      open_count (create_name sample_bits s0 "a_stopped" false) 1 = 1 ∧
      map_find (create_name sample_bits
        (create_name sample_bits s0 "a_stopped" false) "a" true).frm "a_stopped" = some 3 ∧
      (create_name sample_bits
        (create_name sample_bits s0 "a_stopped" false) "a" true).frm =
          [("a", 2), ("a_stopped", 3), ("alerts", 0)] ∧
      (close_all (create_name sample_bits
        (create_name sample_bits s0 "a_stopped" false) "a" true)).calls =
          [recorder_call.call_open 0, recorder_call.call_open 1, recorder_call.call_open 2,
           recorder_call.call_open 3, recorder_call.call_close 2,
           recorder_call.call_close 3, recorder_call.call_close 0] :=
  ⟨_, ctor_files_eq sample_bits [] "in" "out" false, by decide, by decide, by decide,
    by decide, by decide, by decide, by decide⟩

/-- C7. For every set `S` of requested names (listed in ascending order) that does not
contain `"alerts"` and contains no `n` together with `n + "_stopped"`, the second
constructor returns a set whose registry keys are exactly `"alerts"` and the names of
`S` when `create_stop_files` is false, and exactly `"alerts"`, the names of `S` and the
names `n + "_stopped"` for `n` in `S` when it is true; the keys are strictly ascending
(so pairwise different) and there are `1 + |S|` of them in the first case and
`1 + 2·|S|` in the second. -/
theorem ctor_files_keys (M : flag_bits) (S : List String) (i o : String) (c : Bool)
    (hS : List.Pairwise string_lt S) (ha : ALERT_RECORDER_NAME ∉ S)
    (hp : ∀ n ∈ S, n ++ "_stopped" ∉ S) :
    ∃ s, ctor_files M S i o c = some s ∧
      (∀ k, k ∈ map_keys s.frm ↔
        k = ALERT_RECORDER_NAME ∨ k ∈ S ∨ (c = true ∧ ∃ n ∈ S, k = n ++ "_stopped")) ∧
      map_sorted s.frm ∧
      s.frm.length = if c then 1 + 2 * S.length else 1 + S.length := by
  refine ⟨_, ctor_files_eq M S i o c, ?_⟩
  have hnd : S.Nodup := by
    refine hS.imp ?_
    intro a b h e
    rw [e] at h
    exact string_lt_irrefl b h
  have hk1 : ∀ k, k ∈ map_keys (create_name M (initial 0 i o) ALERT_RECORDER_NAME false).frm ↔
      k = ALERT_RECORDER_NAME := by
    intro k
    rw [mem_keys_create_name]
    simp [initial, map_keys]
  have hl1 : (create_name M (initial 0 i o) ALERT_RECORDER_NAME false).frm.length = 1 := by
    rw [length_create_name M (initial 0 i o) ALERT_RECORDER_NAME false
      (by simp [initial, map_keys]) (by simp [initial, map_keys])]
    rfl
  have hf1 : ∀ n ∈ S,
      n ∉ map_keys (create_name M (initial 0 i o) ALERT_RECORDER_NAME false).frm := by
    intro n hn hmem
    rw [hk1] at hmem
    exact ha (hmem ▸ hn)
  have hf2 : ∀ n ∈ S, n ++ "_stopped" ∉
      map_keys (create_name M (initial 0 i o) ALERT_RECORDER_NAME false).frm := by
    intro n _ hmem
    rw [hk1] at hmem
    exact stopped_ne_alerts n hmem
  obtain ⟨hk, hl⟩ := create_names_keys M c S _ hnd hf1 hf2 hp
  refine ⟨?_, ?_, ?_⟩
  · intro k
    rw [hk k, hk1 k]
  · exact create_names_sorted M _ _
      (create_name_sorted M _ _ _ (by simp [map_sorted, map_keys, initial]))
  · rw [hl, hl1]
    cases c <;> simp

theorem ctor_files_keys_witness :
    List.Pairwise string_lt ["email", "url"] ∧ ALERT_RECORDER_NAME ∉ ["email", "url"] ∧
    (∀ n ∈ ["email", "url"], n ++ "_stopped" ∉ ["email", "url"]) ∧
    ∃ s, ctor_files sample_bits ["email", "url"] "in" "out" true = some s ∧
      (∀ k, k ∈ map_keys s.frm ↔
        k = ALERT_RECORDER_NAME ∨ k ∈ ["email", "url"] ∨
          (true = true ∧ ∃ n ∈ ["email", "url"], k = n ++ "_stopped")) ∧
      map_sorted s.frm ∧
      s.frm.length = if true then 1 + 2 * ["email", "url"].length
        else 1 + ["email", "url"].length :=
  ⟨by decide, by decide, by decide,
    ctor_files_keys sample_bits ["email", "url"] "in" "out" true (by decide) (by decide)
      (by decide)⟩

/-- C8. For every flags value with `SET_DISABLED` set, the first constructor returns a
set whose registry has exactly one entry, named `"disabled"`; the recorder it is bound
to is the only recorder allocated, has the flag `FLAG_DISABLED` set, and no recorder
operation, so no `open()`, was called during construction. -/
theorem ctor_flags_registry (M : flag_bits) (flags_ : Nat)
    (hd : (flags_ &&& M.SET_DISABLED) ≠ 0) (hf : M.FLAG_DISABLED ≠ 0) :
    ∃ s fr r, ctor_flags M flags_ = some s ∧
      s.frm = [(DISABLED_RECORDER_NAME, fr)] ∧
      s.heap = [r] ∧ s.heap[fr]? = some r ∧
      r.flag_set M.FLAG_DISABLED = true ∧
      s.calls = [] ∧ ∀ p : Nat, open_count s p = 0 := by
  refine ⟨_, 0, _, ctor_flags_disabled M flags_ hd, rfl, rfl, rfl, ?_, rfl, ?_⟩
  · simpa [feature_recorder.flag_set] using hf
  · intro p
    simp [open_count]

theorem ctor_flags_registry_witness :
    (2 &&& sample_bits.SET_DISABLED) ≠ 0 ∧ sample_bits.FLAG_DISABLED ≠ 0 ∧
    ∃ s fr r, ctor_flags sample_bits 2 = some s ∧
      s.frm = [(DISABLED_RECORDER_NAME, fr)] ∧
      s.heap = [r] ∧ s.heap[fr]? = some r ∧
      r.flag_set sample_bits.FLAG_DISABLED = true ∧
      s.calls = [] ∧ ∀ p : Nat, open_count s p = 0 :=
  ⟨by decide, by decide, ctor_flags_registry sample_bits 2 (by decide) (by decide)⟩

/-- C9. For every set `S` of requested names (listed in ascending order) and either
value of `create_stop_files`, the second constructor returns a set in whose registry
`"alerts"` and every name of `S` are bound, and with stop files also `n + "_stopped"`
for every name `n` of `S` that is neither `"alerts"` nor itself the stop-list name of
a name of `S`; `open()` has been called exactly once on each of these recorders, as on
every recorder bound in the registry, and never on a recorder that is not bound in it;
the calls made during construction are `open()` calls only, one for each registry
entry. -/
theorem ctor_files_opens (M : flag_bits) (S : List String) (i o : String) (c : Bool)
    (hS : List.Pairwise string_lt S) :
    ∃ s, ctor_files M S i o c = some s ∧
      (∃ fr, map_find s.frm ALERT_RECORDER_NAME = some fr ∧ open_count s fr = 1) ∧
      (∀ n ∈ S, ∃ fr, map_find s.frm n = some fr ∧ open_count s fr = 1) ∧
      (c = true → ∀ n ∈ S, n ≠ ALERT_RECORDER_NAME → (∀ m ∈ S, n ≠ m ++ "_stopped") →
        ∃ sl, map_find s.frm (n ++ "_stopped") = some sl ∧ open_count s sl = 1) ∧
      (∀ fr, fr ∈ map_values s.frm → open_count s fr = 1) ∧
      (∀ fr, fr ∉ map_values s.frm → open_count s fr = 0) ∧
      (∀ call ∈ s.calls, ∃ fr, call = recorder_call.call_open fr) ∧
      s.calls.length = s.frm.length := by
  refine ⟨_, ctor_files_eq M S i o c, ?_⟩
  have h0 : ((initial 0 i o).flags &&& M.SET_DISABLED) = 0 := Nat.zero_and _
  obtain ⟨hc1, hp1⟩ := create_name_opens_step M (initial 0 i o) ALERT_RECORDER_NAME false h0
    rfl (List.Perm.refl _) (by simp [initial, map_keys])
  have hflag1 : ((create_name M (initial 0 i o) ALERT_RECORDER_NAME false).flags &&&
      M.SET_DISABLED) = 0 := by
    rw [create_name_flags]; exact h0
  have hk1 : ∀ k, k ∈ map_keys (create_name M (initial 0 i o) ALERT_RECORDER_NAME false).frm ↔
      k = ALERT_RECORDER_NAME := by
    intro k
    rw [mem_keys_create_name]
    simp [initial, map_keys]
  have hfresh : ∀ x ∈ S, x ++ "_stopped" ∉
      map_keys (create_name M (initial 0 i o) ALERT_RECORDER_NAME false).frm := by
    intro x _ hmem
    rw [hk1] at hmem
    exact stopped_ne_alerts x hmem
  obtain ⟨hc, hperm⟩ := create_names_opens M c S _ hS hflag1 hc1 hp1 hfresh
  have hone : ∀ fr, fr ∈ map_values (create_names M
      (create_name M (initial 0 i o) ALERT_RECORDER_NAME false)
      (S.map (fun it => (it, c)))).frm →
      open_count (create_names M (create_name M (initial 0 i o) ALERT_RECORDER_NAME false)
        (S.map (fun it => (it, c)))) fr = 1 := by
    intro fr hfr
    have hlt := List.mem_range.mp ((hperm.mem_iff).mp hfr)
    unfold open_count
    rw [hc, count_open_range, if_pos hlt]
  have hbound : ∀ k : String, has_name (create_names M
      (create_name M (initial 0 i o) ALERT_RECORDER_NAME false)
      (S.map (fun it => (it, c)))) k = true →
      ∃ fr, map_find (create_names M
        (create_name M (initial 0 i o) ALERT_RECORDER_NAME false)
        (S.map (fun it => (it, c)))).frm k = some fr ∧
        open_count (create_names M (create_name M (initial 0 i o) ALERT_RECORDER_NAME false)
          (S.map (fun it => (it, c)))) fr = 1 := by
    intro k hk
    unfold has_name at hk
    obtain ⟨fr, hfr⟩ := Option.isSome_iff_exists.mp hk
    exact ⟨fr, hfr, hone fr (List.mem_map.mpr ⟨(k, fr), map_find_mem _ _ _ hfr, rfl⟩)⟩
  refine ⟨?_, ?_, ?_, hone, ?_, ?_, ?_⟩
  · exact hbound _ (has_name_create_names_mono M _ _ _ (has_name_create_name_self M _ _ _))
  · intro n hn
    refine hbound n (has_name_create_names_of_mem M _ _ n ?_)
    simp only [List.map_map, List.mem_map, Function.comp_apply]
    exact ⟨n, hn, rfl⟩
  · intro hct n hn hna hnst
    subst hct
    refine hbound _ ?_
    obtain ⟨pre, post, rfl⟩ := List.append_of_mem hn
    have hsplit : create_names M (create_name M (initial 0 i o) ALERT_RECORDER_NAME false)
        ((pre ++ n :: post).map (fun it => (it, true))) =
        create_names M (create_name M (create_names M
          (create_name M (initial 0 i o) ALERT_RECORDER_NAME false)
          (pre.map (fun it => (it, true)))) n true) (post.map (fun it => (it, true))) := by
      simp [create_names, List.foldl_append]
    rw [hsplit]
    apply has_name_create_names_mono
    rw [has_name_iff, mem_keys_create_name]
    refine Or.inr (Or.inr ⟨rfl, ?_, rfl⟩)
    intro hmem
    have hpw := List.pairwise_append.mp hS
    rcases mem_keys_create_names_sub M true pre _ n hmem with e | e | ⟨m, hm, e⟩
    · exact hna ((hk1 n).mp e)
    · exact string_lt_irrefl n (hpw.2.2 n e n (List.mem_cons_self n post))
    · exact hnst m (List.mem_append_left _ hm) e
  · intro fr hfr
    have hlt : ¬ fr < (create_names M (create_name M (initial 0 i o) ALERT_RECORDER_NAME false)
        (S.map (fun it => (it, c)))).heap.length :=
      fun h => hfr ((hperm.mem_iff).mpr (List.mem_range.mpr h))
    unfold open_count
    rw [hc, count_open_range, if_neg hlt]
  · intro call hcall
    rw [hc] at hcall
    obtain ⟨fr, _, hfr⟩ := List.mem_map.mp hcall
    exact ⟨fr, hfr.symm⟩
  · have hl := hperm.length_eq
    simp only [map_values, List.length_map, List.length_range] at hl
    rw [hc, List.length_map, List.length_range, hl]

theorem ctor_files_opens_witness :
    List.Pairwise string_lt ["email", "url"] ∧
    (∃ s, ctor_files sample_bits ["email", "url"] "in" "out" true = some s ∧
      s.frm = [("alerts", 0), ("email", 1), ("email_stopped", 2), ("url", 3),
        ("url_stopped", 4)] ∧
      s.calls = [recorder_call.call_open 0, recorder_call.call_open 1,
        recorder_call.call_open 2, recorder_call.call_open 3, recorder_call.call_open 4]) ∧
    ∃ s, ctor_files sample_bits ["email", "url"] "in" "out" true = some s ∧
      (∃ fr, map_find s.frm ALERT_RECORDER_NAME = some fr ∧ open_count s fr = 1) ∧
      (∀ n ∈ ["email", "url"], ∃ fr, map_find s.frm n = some fr ∧ open_count s fr = 1) ∧
      (true = true → ∀ n ∈ ["email", "url"], n ≠ ALERT_RECORDER_NAME →
        (∀ m ∈ ["email", "url"], n ≠ m ++ "_stopped") →
        ∃ sl, map_find s.frm (n ++ "_stopped") = some sl ∧ open_count s sl = 1) ∧
      (∀ fr, fr ∈ map_values s.frm → open_count s fr = 1) ∧
      (∀ fr, fr ∉ map_values s.frm → open_count s fr = 0) ∧
      (∀ call ∈ s.calls, ∃ fr, call = recorder_call.call_open fr) ∧
      s.calls.length = s.frm.length :=
  ⟨by decide,
    ⟨_, ctor_files_eq sample_bits ["email", "url"] "in" "out" true, by decide, by decide⟩,
    ctor_files_opens sample_bits ["email", "url"] "in" "out" true (by decide)⟩

/-- C10. For every list of requested names (empty, or with `"alerts"` in it), input
name, output directory and `create_stop_files`, the second constructor returns a set;
on it, and on every set reached from it by a sequence of `create_name` calls,
`SET_DISABLED` is clear, `has_name("alerts")` holds and `get_alert_recorder()` is a
non-null recorder, the same as `get_name("alerts")`. -/
theorem alert_recorder_present (M : flag_bits) (feature_files : List String) (i o : String)
    (c : Bool) :
    ∃ s, ctor_files M feature_files i o c = some s ∧
      ∀ cs : List (String × Bool),
        ((create_names M s cs).flags &&& M.SET_DISABLED) = 0 ∧
        has_name (create_names M s cs) ALERT_RECORDER_NAME = true ∧
        (∃ fr, get_alert_recorder M (create_names M s cs) = some fr) ∧
        get_alert_recorder M (create_names M s cs) =
          get_name M (create_names M s cs) ALERT_RECORDER_NAME := by
  refine ⟨_, ctor_files_eq M feature_files i o c, ?_⟩
  intro cs
  have hflags : (create_names M (create_names M
      (create_name M (initial 0 i o) ALERT_RECORDER_NAME false)
      (feature_files.map (fun it => (it, c)))) cs).flags = 0 := by
    rw [create_names_flags, create_names_flags, create_name_flags]
    rfl
  have hhas : has_name (create_names M (create_names M
      (create_name M (initial 0 i o) ALERT_RECORDER_NAME false)
      (feature_files.map (fun it => (it, c)))) cs) ALERT_RECORDER_NAME = true :=
    has_name_create_names_mono M _ _ _
      (has_name_create_names_mono M _ _ _ (has_name_create_name_self M _ _ _))
  refine ⟨by rw [hflags]; exact Nat.zero_and _, hhas, ?_, rfl⟩
  unfold has_name at hhas
  obtain ⟨fr, hfr⟩ := Option.isSome_iff_exists.mp hhas
  exact ⟨fr, by simp [get_alert_recorder, get_name, hflags, hfr]⟩

/-! ## The seen set -/

theorem constructed_seen_set (M : flag_bits) (s : feature_recorder_set)
    (hc : constructed M s) : s.seen_set = [] ∧ s.scanner_stats = [] := by
  have hcn : ∀ (t : feature_recorder_set) (n : String) (c : Bool),
      (create_name M t n c).seen_set = t.seen_set ∧
      (create_name M t n c).scanner_stats = t.scanner_stats := by
    intro t n c
    cases h : has_name t n
    · cases c
      · rw [create_name_absent_false M t n h]; exact ⟨rfl, rfl⟩
      · rw [create_name_absent_true M t n h]; exact ⟨rfl, rfl⟩
    · rw [create_name_present M t n c h]; exact ⟨rfl, rfl⟩
  have hcns : ∀ (cs : List (String × Bool)) (t : feature_recorder_set),
      (create_names M t cs).seen_set = t.seen_set ∧
      (create_names M t cs).scanner_stats = t.scanner_stats := by
    intro cs
    induction cs with
    | nil => intro t; exact ⟨rfl, rfl⟩
    | cons c rest ih =>
      intro t
      simp only [create_names, List.foldl_cons] at ih ⊢
      rw [(ih _).1, (ih _).2]
      exact hcn t c.1 c.2
  rcases hc with ⟨flags_, hf⟩ | ⟨ff, i, o, c, hf⟩
  · by_cases hd : (flags_ &&& M.SET_DISABLED) = 0
    · simp [ctor_flags, initial, hd] at hf
    · rw [ctor_flags_disabled M flags_ hd] at hf
      cases hf
      exact ⟨rfl, rfl⟩
  · rw [ctor_files_eq] at hf
    cases hf
    rw [(hcns _ _).1, (hcns _ _).2]
    exact hcn _ _ _

theorem check_all_get (hexdigest : List Nat → String) (bufs : List (List Nat)) :
    ∀ (s : feature_recorder_set) (i : Nat) (b : List Nat), bufs[i]? = some b →
      (check_all hexdigest s bufs).1[i]? =
        some (decide (hexdigest b ∈ s.seen_set ∨
          hexdigest b ∈ (bufs.take i).map hexdigest)) := by
  induction bufs with
  | nil => intro s i b hb; simp at hb
  | cons b0 rest ih =>
    intro s i b hb
    cases i with
    | zero =>
      simp only [List.getElem?_cons_zero, Option.some.injEq] at hb
      subst hb
      by_cases hm : hexdigest b0 ∈ s.seen_set
      · simp [check_all, check_previously_processed, hm]
      · simp [check_all, check_previously_processed, hm]
    | succ k =>
      simp only [List.getElem?_cons_succ] at hb
      have h1 := ih (check_previously_processed hexdigest s b0).2 k b hb
      simp only [check_all, List.getElem?_cons_succ, h1, List.take_succ_cons, List.map_cons,
        List.mem_cons]
      by_cases hm : hexdigest b0 ∈ s.seen_set
      · have hs : (check_previously_processed hexdigest s b0).2 = s := by
          simp [check_previously_processed, hm]
        rw [hs]
        by_cases he : hexdigest b = hexdigest b0
        · simp [he, hm]
        · simp [he]
      · have hs : (check_previously_processed hexdigest s b0).2.seen_set =
            hexdigest b0 :: s.seen_set := by
          simp [check_previously_processed, hm]
        rw [hs]
        simp only [List.mem_cons]
        congr 1
        apply decide_eq_decide.mpr
        tauto

theorem mem_take_map_iff (hexdigest : List Nat → String) (bufs : List (List Nat)) (i : Nat)
    (d : String) : d ∈ (bufs.take i).map hexdigest ↔
      ∃ (j : Nat) (b' : List Nat), j < i ∧ bufs[j]? = some b' ∧ hexdigest b' = d := by
  constructor
  · intro h
    obtain ⟨b', hb', hd⟩ := List.mem_map.mp h
    obtain ⟨j, hj⟩ := List.mem_iff_getElem?.mp hb'
    rw [List.getElem?_take] at hj
    by_cases hlt : j < i
    · rw [if_pos hlt] at hj
      exact ⟨j, b', hlt, hj, hd⟩
    · rw [if_neg hlt] at hj
      cases hj
  · rintro ⟨j, b', hlt, hj, hd⟩
    refine List.mem_map.mpr ⟨b', ?_, hd⟩
    refine List.mem_iff_getElem?.mpr ⟨j, ?_⟩
    rw [List.getElem?_take, if_pos hlt]
    exact hj

/-- C11. On a freshly constructed set and for every sequence of buffers, every call
of `check_previously_processed` returns, and the call for the buffer at position `i`
returns true exactly when an earlier buffer of the sequence has the same digest. -/
theorem check_previously_processed_sequence (M : flag_bits) (hexdigest : List Nat → String)
    (s : feature_recorder_set) (hc : constructed M s) (bufs : List (List Nat)) (i : Nat)
    (b : List Nat) (hb : bufs[i]? = some b) :
    ∃ r : Bool, (check_all hexdigest s bufs).1[i]? = some r ∧
      (r = true ↔ ∃ (j : Nat) (b' : List Nat),
        j < i ∧ bufs[j]? = some b' ∧ hexdigest b' = hexdigest b) := by
  refine ⟨_, check_all_get hexdigest bufs s i b hb, ?_⟩
  rw [(constructed_seen_set M s hc).1, decide_eq_true_iff,
    ← mem_take_map_iff hexdigest bufs i (hexdigest b)]
  simp

theorem check_previously_processed_sequence_witness :
    constructed sample_bits sample_disabled_set ∧
    [sample_buf_A, sample_buf_A, sample_buf_B][1]? = some sample_buf_A ∧
    (check_all sample_hexdigest sample_disabled_set
      [sample_buf_A, sample_buf_A, sample_buf_B]).1 = [false, true, false] ∧
    ∃ r : Bool, (check_all sample_hexdigest sample_disabled_set
        [sample_buf_A, sample_buf_A, sample_buf_B]).1[1]? = some r ∧
      (r = true ↔ ∃ (j : Nat) (b' : List Nat),
        j < 1 ∧ [sample_buf_A, sample_buf_A, sample_buf_B][j]? = some b' ∧
          sample_hexdigest b' = sample_hexdigest sample_buf_A) :=
  ⟨Or.inl ⟨2, by decide⟩, by decide, by decide,
    check_previously_processed_sequence sample_bits sample_hexdigest sample_disabled_set
      (Or.inl ⟨2, by decide⟩) [sample_buf_A, sample_buf_A, sample_buf_B] 1 sample_buf_A
      (by decide)⟩

/-! ## The scanner statistics -/

theorem bit_length_aux_eq (fuel : Nat) : ∀ n : Nat, n ≤ fuel →
    bit_length_aux fuel n = if n = 0 then 0 else Nat.log2 n + 1 := by
  induction fuel with
  | zero =>
    intro n hn
    have : n = 0 := by omega
    subst this
    simp [bit_length_aux]
  | succ f ih =>
    intro n hn
    by_cases h0 : n = 0
    · simp [bit_length_aux, h0]
    · have hhalf : n / 2 ≤ f := by omega
      simp only [bit_length_aux, h0, if_false]
      rw [ih (n / 2) hhalf]
      by_cases h2 : 2 ≤ n
      · have hne : n / 2 ≠ 0 := by omega
        rw [if_neg hne]
        conv_rhs => rw [Nat.log2]
        simp [h2]
      · have h1 : n = 1 := by omega
        subst h1
        simp [Nat.log2]

/-- `bit_length n` is `⌊log₂ n⌋ + 1` for `n > 0`. -/
theorem bit_length_eq (n : Nat) : bit_length n = if n = 0 then 0 else Nat.log2 n + 1 :=
  bit_length_aux_eq n n (le_refl n)

set_option maxRecDepth 100000 in
/-- The `double`s `0.1` and `0.2` add up to `0.30000000000000004`, `2^53` and `1.0` to
`2^53`, `0.5` and `0.5` to `1.0`, and `+∞` and `-∞` to not-a-number. -/
theorem double_add_samples :
    double_add (double.fin false 7205759403792794 (-56))
      (double.fin false 7205759403792794 (-55)) = double.fin false 5404319552844596 (-54) ∧
    double_add sample_two_pow_53 sample_one = sample_two_pow_53 ∧
    double_add sample_half sample_half = sample_one ∧
    double_add (double.inf false) (double.inf true) = double.nan := by
  decide

theorem values_assign_mem {β : Type} (m : List (String × β)) (k : String) (v x : β)
    (hx : x ∈ map_values (map_assign m k v)) : x = v ∨ x ∈ map_values m := by
  induction m with
  | nil =>
    simp [map_assign, map_values] at hx
    exact Or.inl hx
  | cons kv rest ih =>
    obtain ⟨k', v'⟩ := kv
    by_cases h1 : string_lt k k'
    · simp only [map_assign, h1, if_true, map_values, List.map_cons, List.mem_cons] at hx ⊢
      exact hx
    · by_cases h2 : k = k'
      · subst h2
        simp only [map_assign, h1, if_false, if_true, map_values, List.map_cons,
          List.mem_cons] at hx ⊢
        rcases hx with e | e
        · exact Or.inl e
        · exact Or.inr (Or.inr e)
      · simp only [map_assign, h1, h2, if_false, map_values, List.map_cons,
          List.mem_cons] at hx ⊢
        rcases hx with e | e
        · exact Or.inr (Or.inl e)
        · rcases ih e with e2 | e2
          · exact Or.inl e2
          · exact Or.inr (Or.inr e2)

theorem values_assign_nodup {β : Type} (m : List (String × β)) (k : String) (v : β)
    (hnd : (map_values m).Nodup) (hv : v ∉ map_values m) :
    (map_values (map_assign m k v)).Nodup := by
  induction m with
  | nil => simp [map_assign, map_values]
  | cons kv rest ih =>
    obtain ⟨k', v'⟩ := kv
    simp only [map_values, List.map_cons, List.nodup_cons, List.mem_cons, not_or] at hnd hv
    by_cases h1 : string_lt k k'
    · simp only [map_assign, h1, if_true, map_values, List.map_cons, List.nodup_cons,
        List.mem_cons, not_or]
      exact ⟨⟨hv.1, hv.2⟩, hnd.1, hnd.2⟩
    · by_cases h2 : k = k'
      · subst h2
        simp only [map_assign, h1, if_false, if_true, map_values, List.map_cons,
          List.nodup_cons]
        exact ⟨hv.2, hnd.2⟩
      · simp only [map_assign, h1, h2, if_false, map_values, List.map_cons, List.nodup_cons]
        refine ⟨?_, ih hnd.2 hv.2⟩
        intro hmem
        rcases values_assign_mem rest k v v' hmem with e | e
        · exact hv.1 e.symm
        · exact hnd.1 e

theorem create_name_values (M : flag_bits) (s : feature_recorder_set) (n : String) (c : Bool)
    (hnd : (map_values s.frm).Nodup) (hlt : ∀ v ∈ map_values s.frm, v < s.heap.length) :
    (map_values (create_name M s n c).frm).Nodup ∧
    ∀ v ∈ map_values (create_name M s n c).frm, v < (create_name M s n c).heap.length := by
  have hfresh : s.heap.length ∉ map_values s.frm := fun h => Nat.lt_irrefl _ (hlt _ h)
  have hnd1 : (map_values (map_assign s.frm n s.heap.length)).Nodup :=
    values_assign_nodup _ _ _ hnd hfresh
  have hlt1 : ∀ v ∈ map_values (map_assign s.frm n s.heap.length), v < s.heap.length + 1 := by
    intro v hv
    rcases values_assign_mem _ _ _ _ hv with e | e
    · omega
    · have := hlt v e; omega
  cases h : has_name s n
  · cases c
    · rw [create_name_absent_false M s n h]
      refine ⟨hnd1, ?_⟩
      intro v hv
      have := hlt1 v hv
      simpa using this
    · rw [create_name_absent_true M s n h]
      have hfresh1 : s.heap.length + 1 ∉ map_values (map_assign s.frm n s.heap.length) :=
        fun hm => Nat.lt_irrefl _ (hlt1 _ hm)
      refine ⟨values_assign_nodup _ _ _ hnd1 hfresh1, ?_⟩
      intro v hv
      have hv2 : v = s.heap.length + 1 ∨
          v ∈ map_values (map_assign s.frm n s.heap.length) :=
        values_assign_mem _ _ _ _ hv
      have hlen : (s.heap ++
          [({ outdir := s.outdir, input_fname := s.input_fname, name := n, flags := 0,
              stop_list_recorder := some (s.heap.length + 1) } : feature_recorder),
           feature_recorder.construct s.outdir s.input_fname (n ++ "_stopped")]).length =
          s.heap.length + 2 := by simp
      show v < (s.heap ++ [_, _]).length
      rw [hlen]
      rcases hv2 with e | e
      · omega
      · have := hlt1 v e; omega
  · rw [create_name_present M s n c h]
    exact ⟨hnd, hlt⟩

theorem create_names_values (M : flag_bits) (cs : List (String × Bool)) :
    ∀ s : feature_recorder_set, (map_values s.frm).Nodup →
      (∀ v ∈ map_values s.frm, v < s.heap.length) →
      (map_values (create_names M s cs).frm).Nodup ∧
      ∀ v ∈ map_values (create_names M s cs).frm, v < (create_names M s cs).heap.length := by
  induction cs with
  | nil => intro s hnd hlt; exact ⟨hnd, hlt⟩
  | cons c rest ih =>
    intro s hnd hlt
    obtain ⟨h1, h2⟩ := create_name_values M s c.1 c.2 hnd hlt
    exact ih (create_name M s c.1 c.2) h1 h2

theorem constructed_values (M : flag_bits) (s : feature_recorder_set) (hc : constructed M s) :
    (map_values s.frm).Nodup ∧ ∀ v ∈ map_values s.frm, v < s.heap.length := by
  rcases hc with ⟨flags_, hf⟩ | ⟨ff, i, o, c, hf⟩
  · by_cases hd : (flags_ &&& M.SET_DISABLED) = 0
    · simp [ctor_flags, initial, hd] at hf
    · rw [ctor_flags_disabled M flags_ hd] at hf
      cases hf
      simp [map_values]
  · rw [ctor_files_eq] at hf
    cases hf
    have h0 := create_name_values M (initial 0 i o) ALERT_RECORDER_NAME false
      (by simp [initial, map_values]) (by simp [initial, map_values])
    exact create_names_values M _ _ h0.1 h0.2

theorem reachable_values (M : flag_bits) (s : feature_recorder_set) (hr : reachable M s) :
    (map_values s.frm).Nodup ∧ ∀ v ∈ map_values s.frm, v < s.heap.length := by
  obtain ⟨s0, cs, hc, rfl⟩ := hr
  have h0 := constructed_values M s0 hc
  exact create_names_values M cs s0 h0.1 h0.2

theorem count_map_flush (vs : List Nat) (fr : Nat) :
    (vs.map recorder_call.call_flush).count (recorder_call.call_flush fr) = vs.count fr := by
  induction vs with
  | nil => rfl
  | cons v rest ih =>
    by_cases h : v = fr
    · subst h; simp [List.count_cons, ih]
    · simp [List.count_cons, ih, h]

theorem count_map_close (vs : List Nat) (fr : Nat) :
    (vs.map recorder_call.call_close).count (recorder_call.call_close fr) = vs.count fr := by
  induction vs with
  | nil => rfl
  | cons v rest ih =>
    by_cases h : v = fr
    · subst h; simp [List.count_cons, ih]
    · simp [List.count_cons, ih, h]

/-! ## Fan-out -/

/-- C13. On every set reached by a constructor and any sequence of `create_name` calls,
`flush_all()` makes `flush()` calls only, one on the recorder of every registry entry
(the `_stopped` entries are entries like the others), exactly once on each recorder
bound in the registry and on no other; `close_all()` does the same with `close()`;
each leaves every member of the set as it was, the registry included. -/
theorem registry_fan_out (M : flag_bits) (s : feature_recorder_set) (hr : reachable M s) :
    (∃ new : List recorder_call, flush_all s = { s with calls := s.calls ++ new } ∧
      (∀ (k : String) (fr : Nat), (k, fr) ∈ s.frm → flush_count new fr = 1) ∧
      (∀ fr : Nat, fr ∉ map_values s.frm → flush_count new fr = 0) ∧
      (∀ call ∈ new, ∃ fr, call = recorder_call.call_flush fr)) ∧
    (∃ new : List recorder_call, close_all s = { s with calls := s.calls ++ new } ∧
      (∀ (k : String) (fr : Nat), (k, fr) ∈ s.frm → close_count new fr = 1) ∧
      (∀ fr : Nat, fr ∉ map_values s.frm → close_count new fr = 0) ∧
      (∀ call ∈ new, ∃ fr, call = recorder_call.call_close fr)) ∧
    (flush_all s).frm = s.frm ∧ (close_all s).frm = s.frm := by
  have hnd : (map_values s.frm).Nodup := (reachable_values M s hr).1
  have hval : ∀ (k : String) (fr : Nat), (k, fr) ∈ s.frm → fr ∈ map_values s.frm := by
    intro k fr h
    exact List.mem_map.mpr ⟨(k, fr), h, rfl⟩
  refine ⟨⟨(map_values s.frm).map recorder_call.call_flush, rfl, ?_, ?_, ?_⟩,
    ⟨(map_values s.frm).map recorder_call.call_close, rfl, ?_, ?_, ?_⟩, rfl, rfl⟩
  · intro k fr h
    unfold flush_count
    rw [count_map_flush]
    exact List.count_eq_one_of_mem hnd (hval k fr h)
  · intro fr h
    unfold flush_count
    rw [count_map_flush]
    exact List.count_eq_zero_of_not_mem h
  · intro call hcall
    obtain ⟨fr, _, hfr⟩ := List.mem_map.mp hcall
    exact ⟨fr, hfr.symm⟩
  · intro k fr h
    unfold close_count
    rw [count_map_close]
    exact List.count_eq_one_of_mem hnd (hval k fr h)
  · intro fr h
    unfold close_count
    rw [count_map_close]
    exact List.count_eq_zero_of_not_mem h
  · intro call hcall
    obtain ⟨fr, _, hfr⟩ := List.mem_map.mp hcall
    exact ⟨fr, hfr.symm⟩

theorem registry_fan_out_witness :
    reachable sample_bits sample_active_set ∧
    (∃ new : List recorder_call,
      flush_all sample_active_set =
        { sample_active_set with calls := sample_active_set.calls ++ new } ∧
      (∀ (k : String) (fr : Nat), (k, fr) ∈ sample_active_set.frm → flush_count new fr = 1) ∧
      (∀ fr : Nat, fr ∉ map_values sample_active_set.frm → flush_count new fr = 0) ∧
      (∀ call ∈ new, ∃ fr, call = recorder_call.call_flush fr)) ∧
    (∃ new : List recorder_call,
      close_all sample_active_set =
        { sample_active_set with calls := sample_active_set.calls ++ new } ∧
      (∀ (k : String) (fr : Nat), (k, fr) ∈ sample_active_set.frm → close_count new fr = 1) ∧
      (∀ fr : Nat, fr ∉ map_values sample_active_set.frm → close_count new fr = 0) ∧
      (∀ call ∈ new, ∃ fr, call = recorder_call.call_close fr)) ∧
    (flush_all sample_active_set).frm = sample_active_set.frm ∧
    (close_all sample_active_set).frm = sample_active_set.frm :=
  ⟨⟨sample_alerts_set, [("email", true)], Or.inr ⟨[], "in", "out", false, by decide⟩, rfl⟩,
    registry_fan_out sample_bits sample_active_set
      ⟨sample_alerts_set, [("email", true)], Or.inr ⟨[], "in", "out", false, by decide⟩, rfl⟩⟩

/-! ## Construction by flags -/

/-- C14. The first constructor, with `assert` in force, fails at `assert(0)` exactly
for the flags values in which `SET_DISABLED` is clear; for every flags value in which
it is set the constructor returns a set, whose registry is the single entry
`"disabled"`; so no flags value gives a set with an empty registry. -/
theorem ctor_flags_assert (M : flag_bits) (flags_ : Nat) :
    (ctor_flags M flags_ = none ↔ (flags_ &&& M.SET_DISABLED) = 0) ∧
    ((flags_ &&& M.SET_DISABLED) ≠ 0 →
      ∃ s, ctor_flags M flags_ = some s ∧ map_keys s.frm = [DISABLED_RECORDER_NAME]) ∧
    (∀ s, ctor_flags M flags_ = some s → s.frm ≠ []) := by
  by_cases hd : (flags_ &&& M.SET_DISABLED) = 0
  · have hnone : ctor_flags M flags_ = none := by simp [ctor_flags, initial, hd]
    refine ⟨⟨fun _ => hd, fun _ => hnone⟩, fun h => absurd hd h, ?_⟩
    intro s hs
    rw [hnone] at hs
    cases hs
  · have hsome := ctor_flags_disabled M flags_ hd
    refine ⟨⟨?_, fun h => absurd h hd⟩, fun _ => ⟨_, hsome, rfl⟩, ?_⟩
    · intro hn
      rw [hsome] at hn
      cases hn
    · intro s hs
      rw [hsome] at hs
      cases hs
      simp

/-! ## Stop-list recorders -/

/-- C16 (the code at the failing input). On the set made by the second constructor for
no requested name, `create_name("x_stopped", true)` registers `"x_stopped"` with the
recorder at address `1`, whose stop-list child is the recorder at `2`, registered as
`"x_stopped_stopped"`. The call `create_name("x", true)` that follows assigns
`frm["x_stopped"]` again: the recorder now registered under `"x_stopped"` is the one at
address `4`, which has no stop-list child, although `"x_stopped"` was first created
with `create_stop_file = true`; the recorder at `2` is still registered while its
parent at `1` is not. -/
theorem stop_list_pairing_broken :
    ∃ s0, ctor_files sample_bits [] "in" "out" false = some s0 ∧
      has_name s0 "x_stopped" = false ∧
      map_find (create_name sample_bits s0 "x_stopped" true).frm "x_stopped" = some 1 ∧
      ((create_name sample_bits s0 "x_stopped" true).heap[1]?).bind
        feature_recorder.stop_list_recorder = some 2 ∧
      map_find (create_name sample_bits
        (create_name sample_bits s0 "x_stopped" true) "x" true).frm "x_stopped" = some 4 ∧
      ((create_name sample_bits
        (create_name sample_bits s0 "x_stopped" true) "x" true).heap[4]?).bind
          feature_recorder.stop_list_recorder = none ∧
      (create_name sample_bits
        (create_name sample_bits s0 "x_stopped" true) "x" true).frm =
          [("alerts", 0), ("x", 3), ("x_stopped", 4), ("x_stopped_stopped", 2)] ∧
      ((create_name sample_bits
        (create_name sample_bits s0 "x_stopped" true) "x" true).heap[1]?).bind
          feature_recorder.stop_list_recorder = some 2 :=
  ⟨_, ctor_files_eq sample_bits [] "in" "out" false, by decide, by decide, by decide,
    by decide, by decide, by decide, by decide⟩

/-! ## Frame -/

/-- C17. `add_stats` changes no member but `scanner_stats`, `check_previously_processed`
none but `seen_set`, `flush_all` and `close_all` none of the members of the class (they
only make recorder calls): the registry and the flags are the same after each of them.
`get_name`, `has_name`, `get_alert_recorder` and `get_stats` write no member, which is
why they are functions to their result alone. `create_name` does change the registry:
on a set without the name `n` the registry after `create_name(n, c)` has the key `n`. -/
theorem registry_frame (M : flag_bits) (s : feature_recorder_set) :
    (∀ (calls_range : Nat) (bucket : String) (seconds : double),
      add_stats calls_range s bucket seconds =
        { s with scanner_stats := (add_stats calls_range s bucket seconds).scanner_stats }) ∧
    (∀ (hexdigest : List Nat → String) (buf : List Nat),
      (check_previously_processed hexdigest s buf).2 =
        { s with seen_set := (check_previously_processed hexdigest s buf).2.seen_set }) ∧
    flush_all s = { s with calls := (flush_all s).calls } ∧
    close_all s = { s with calls := (close_all s).calls } ∧
    (∀ (n : String) (c : Bool), has_name s n = false →
      (create_name M s n c).frm ≠ s.frm ∧ n ∈ map_keys (create_name M s n c).frm) := by
  refine ⟨fun _ _ _ => rfl, ?_, rfl, rfl, ?_⟩
  · intro hexdigest buf
    by_cases hm : hexdigest buf ∈ s.seen_set
    · simp [check_previously_processed, hm]
    · simp [check_previously_processed, hm]
  · intro n c hn
    have hmem : n ∈ map_keys (create_name M s n c).frm :=
      (has_name_iff _ n).mp (has_name_create_name_self M s n c)
    refine ⟨?_, hmem⟩
    intro he
    rw [he] at hmem
    exact (has_name_false_iff s n).mp hn hmem

/-! ## `has_name` and the mode gate -/

/-- C20. `has_name(n)` holds exactly when `n` is a key of the registry, whatever the
flags. On the set made by the first constructor from flags with `SET_DISABLED` set and
`ONLY_ALERT` clear, `has_name(n)` holds for `n = "disabled"` only, while `get_name(n)`
is non-null for every `n`; for the name `"alerts"` on that set `has_name` is false and
`get_name` is non-null. -/
theorem has_name_ungated (M : flag_bits) (flags_ : Nat)
    (hd : (flags_ &&& M.SET_DISABLED) ≠ 0) (ha : (flags_ &&& M.ONLY_ALERT) = 0) :
    (∀ (s : feature_recorder_set) (n : String), has_name s n = true ↔ n ∈ map_keys s.frm) ∧
    ∃ s, ctor_flags M flags_ = some s ∧
      (∀ n : String, (has_name s n = true ↔ n = DISABLED_RECORDER_NAME) ∧
        ∃ fr, get_name M s n = some fr) ∧
      has_name s ALERT_RECORDER_NAME = false ∧
      ∃ fr, get_name M s ALERT_RECORDER_NAME = some fr := by
  refine ⟨has_name_iff, _, ctor_flags_disabled M flags_ hd, ?_, ?_, ?_⟩
  · intro n
    constructor
    · rw [has_name_iff]
      simp [map_keys]
    · exact ⟨0, by simp [get_name, hd, ha, map_find]⟩
  · rw [has_name_false_iff]
    simp only [map_keys, List.map_cons, List.map_nil, List.mem_singleton]
    decide
  · exact ⟨0, by simp [get_name, hd, ha, map_find]⟩

theorem has_name_ungated_witness :
    (2 &&& sample_bits.SET_DISABLED) ≠ 0 ∧ (2 &&& sample_bits.ONLY_ALERT) = 0 ∧
    (∀ (s : feature_recorder_set) (n : String), has_name s n = true ↔ n ∈ map_keys s.frm) ∧
    ∃ s, ctor_flags sample_bits 2 = some s ∧
      (∀ n : String, (has_name s n = true ↔ n = DISABLED_RECORDER_NAME) ∧
        ∃ fr, get_name sample_bits s n = some fr) ∧
      has_name s ALERT_RECORDER_NAME = false ∧
      ∃ fr, get_name sample_bits s ALERT_RECORDER_NAME = some fr :=
  ⟨by decide, by decide, has_name_ungated sample_bits 2 (by decide) (by decide)⟩

/-! ## No recorder is lost by the second constructor -/

theorem fresh_step (M : flag_bits) (s : feature_recorder_set) (n : String) (c : Bool)
    (R : List String) (hnR : ∀ x ∈ R, string_lt n x)
    (hfresh : ∀ x ∈ n :: R, x ++ "_stopped" ∉ map_keys s.frm) :
    ∀ x ∈ R, x ++ "_stopped" ∉ map_keys (create_name M s n c).frm := by
  intro x hx hmem
  rcases (mem_keys_create_name M s n (x ++ "_stopped") c).mp hmem with e | e | ⟨_, _, e⟩
  · exact hfresh x (List.mem_cons_of_mem n hx) e
  · have h1 : string_lt n x := hnR x hx
    have h2 : string_lt x (x ++ "_stopped") := lt_stopped x
    rw [e] at h2
    exact string_lt_asymm h1 h2
  · have h1 : string_lt n x := hnR x hx
    rw [stopped_inj e] at h1
    exact string_lt_irrefl n h1

theorem create_names_fresh (M : flag_bits) (c : Bool) (L : List String) :
    ∀ s : feature_recorder_set, List.Pairwise string_lt L →
      (∀ x ∈ L, x ++ "_stopped" ∉ map_keys s.frm) →
      ∀ (k : Nat) (n : String), L[k]? = some n →
        n ++ "_stopped" ∉
          map_keys (create_names M s ((L.take k).map (fun it => (it, c)))).frm := by
  induction L with
  | nil => intro s _ _ k n hk; simp at hk
  | cons a R ih =>
    intro s hL hfresh k n hk
    cases k with
    | zero =>
      simp only [List.getElem?_cons_zero, Option.some.injEq] at hk
      subst hk
      exact hfresh a (List.mem_cons_self a R)
    | succ j =>
      simp only [List.getElem?_cons_succ] at hk
      have hstep := fresh_step M s a c R (List.pairwise_cons.mp hL).1 hfresh
      exact ih (create_name M s a c) (List.pairwise_cons.mp hL).2 hstep j n hk

theorem count_close_in_opens (vs : List Nat) (fr : Nat) :
    (vs.map recorder_call.call_open).count (recorder_call.call_close fr) = 0 := by
  induction vs with
  | nil => rfl
  | cons v rest ih => simp [List.count_cons, ih]

/-- C19. For every set `S` of requested names (listed in ascending order, with no
other restriction) and either value of `create_stop_files`, the second constructor
returns a set, and when its loop reaches a name `n` of `S` the key `n + "_stopped"`
is not bound in the registry (the key `n` is assigned only after the test that it is
not bound, and the first call, for `"alerts"`, is made on the empty registry without
a stop file): no call assigns a key that is already bound. Hence every recorder
allocated during construction is bound in the registry when the constructor returns,
has been opened once, and is closed once by `close_all`. -/
theorem ctor_files_keeps_recorders (M : flag_bits) (S : List String) (i o : String)
    (c : Bool) (hS : List.Pairwise string_lt S) :
    ∃ s, ctor_files M S i o c = some s ∧
      (∀ (k : Nat) (n : String), S[k]? = some n →
        n ++ "_stopped" ∉ map_keys (create_names M
          (create_name M (initial 0 i o) ALERT_RECORDER_NAME false)
          ((S.take k).map (fun it => (it, c)))).frm) ∧
      (∀ fr : Nat, fr < s.heap.length →
        fr ∈ map_values s.frm ∧ open_count s fr = 1 ∧
        close_count (close_all s).calls fr = 1) := by
  refine ⟨_, ctor_files_eq M S i o c, ?_⟩
  have h0 : ((initial 0 i o).flags &&& M.SET_DISABLED) = 0 := Nat.zero_and _
  obtain ⟨hc1, hp1⟩ := create_name_opens_step M (initial 0 i o) ALERT_RECORDER_NAME false h0
    rfl (List.Perm.refl _) (by simp [initial, map_keys])
  have hflag1 : ((create_name M (initial 0 i o) ALERT_RECORDER_NAME false).flags &&&
      M.SET_DISABLED) = 0 := by
    rw [create_name_flags]; exact h0
  have hfresh : ∀ x ∈ S, x ++ "_stopped" ∉
      map_keys (create_name M (initial 0 i o) ALERT_RECORDER_NAME false).frm := by
    intro x _ hmem
    rw [mem_keys_create_name] at hmem
    simp [initial, map_keys] at hmem
    exact stopped_ne_alerts x hmem
  obtain ⟨hc, hperm⟩ := create_names_opens M c S _ hS hflag1 hc1 hp1 hfresh
  refine ⟨create_names_fresh M c S _ hS hfresh, ?_⟩
  intro fr hlt
  have hmem : fr ∈ map_values (create_names M
      (create_name M (initial 0 i o) ALERT_RECORDER_NAME false)
      (S.map (fun it => (it, c)))).frm := (hperm.mem_iff).mpr (List.mem_range.mpr hlt)
  have hnd : (map_values (create_names M
      (create_name M (initial 0 i o) ALERT_RECORDER_NAME false)
      (S.map (fun it => (it, c)))).frm).Nodup := (hperm.nodup_iff).mpr (List.nodup_range _)
  refine ⟨hmem, ?_, ?_⟩
  · unfold open_count
    rw [hc, count_open_range, if_pos hlt]
  · unfold close_count close_all
    show List.count _ (_ ++ _) = 1
    rw [List.count_append, hc, count_close_in_opens, count_map_close, Nat.zero_add]
    exact List.count_eq_one_of_mem hnd hmem

theorem ctor_files_keeps_recorders_witness :
    List.Pairwise string_lt ["a", "a_stopped", "alerts"] ∧
    ∃ s, ctor_files sample_bits ["a", "a_stopped", "alerts"] "in" "out" true = some s ∧
      (∀ (k : Nat) (n : String), ["a", "a_stopped", "alerts"][k]? = some n →
        n ++ "_stopped" ∉ map_keys (create_names sample_bits
          (create_name sample_bits (initial 0 "in" "out") ALERT_RECORDER_NAME false)
          ((["a", "a_stopped", "alerts"].take k).map (fun it => (it, true)))).frm) ∧
      (∀ fr : Nat, fr < s.heap.length →
        fr ∈ map_values s.frm ∧ open_count s fr = 1 ∧
        close_count (close_all s).calls fr = 1) :=
  ⟨by decide,
    ctor_files_keeps_recorders sample_bits ["a", "a_stopped", "alerts"] "in" "out" true
      (by decide)⟩

/-! ## Locks -/

theorem held_at_accesses {α : Type} (held : List mutex) (c : container) (l : List α) :
    held_at held (l.map (fun _ => sync_event.access c)) = l.map (fun _ => (c, held)) := by
  induction l with
  | nil => rfl
  | cons a rest ih => simp only [List.map_cons, held_at, ih]

theorem max_held_accesses {α : Type} (held : List mutex) (c : container) (l : List α) :
    max_held held (l.map (fun _ => sync_event.access c)) = held.length := by
  induction l with
  | nil => rfl
  | cons a rest ih => simp only [List.map_cons, max_held, ih]

theorem create_name_traced_fst (M : flag_bits) (s : feature_recorder_set) (name : String)
    (create_stop_file : Bool) :
    (create_name_traced M s name create_stop_file).1 =
      create_name M s name create_stop_file := by
  unfold create_name_traced create_name
  cases hp : (map_find s.frm name).isSome
  · simp only [Bool.false_eq_true, if_false]
  · simp only [if_true]

theorem create_name_traced_snd (M : flag_bits) (s : feature_recorder_set) (name : String)
    (create_stop_file : Bool) :
    (create_name_traced M s name create_stop_file).2 =
      sync_event.access container.frm ::
        (if (map_find s.frm name).isSome then []
         else sync_event.access container.frm ::
           (if create_stop_file then [sync_event.access container.frm] else [])) := by
  unfold create_name_traced
  cases hp : (map_find s.frm name).isSome
  · cases create_stop_file <;> simp
  · simp only [if_true]

/-- Each method with events has the result of the method itself. -/
theorem traced_results (M : flag_bits) (W : Nat) (hexdigest : List Nat → String)
    (s : feature_recorder_set) (buf : List Nat) (name bucket : String) (seconds : double)
    (create_stop_file : Bool) :
    (get_name_traced M s name).1 = get_name M s name ∧
    (get_alert_recorder_traced M s).1 = get_alert_recorder M s ∧
    (has_name_traced s name).1 = has_name s name ∧
    (add_stats_traced W s bucket seconds).1 = add_stats W s bucket seconds ∧
    (get_stats_traced s).1 = get_stats s ∧
    (check_previously_processed_traced hexdigest s buf).1 =
      check_previously_processed hexdigest s buf ∧
    (create_name_traced M s name create_stop_file).1 = create_name M s name create_stop_file ∧
    (flush_all_traced s).1 = flush_all s ∧
    (close_all_traced s).1 = close_all s := by
  refine ⟨rfl, rfl, rfl, rfl, rfl, ?_, ?_, rfl, rfl⟩
  · by_cases hm : hexdigest buf ∈ s.seen_set
    · simp [check_previously_processed_traced, check_previously_processed, hm]
    · simp [check_previously_processed_traced, check_previously_processed, hm]
  · exact create_name_traced_fst M s name create_stop_file

/-- C18 (counterexample). There are no two different mutexes of which `get_name` holds
one at its registry lookup and `add_stats` the other at its access to `scanner_stats`:
on the sample sets both hold `Mlock`. And on the sample set with one bucket,
`get_stats` reads `scanner_stats` twice with no mutex held. -/
theorem lock_discipline_counterexample :
    (¬ ∃ registry_lock stats_lock : mutex, registry_lock ≠ stats_lock ∧
      held_at [] (get_name_traced sample_bits sample_active_set "email").2 =
        [(container.frm, [registry_lock])] ∧
      held_at [] (add_stats_traced (2 ^ 64) sample_disabled_set "scanner_email"
        sample_half).2 = [(container.scanner_stats, [stats_lock])]) ∧
    held_at [] (get_name_traced sample_bits sample_active_set "email").2 =
      [(container.frm, [mutex.Mlock])] ∧
    held_at [] (add_stats_traced (2 ^ 64) sample_disabled_set "scanner_email"
      sample_half).2 = [(container.scanner_stats, [mutex.Mlock])] ∧
    held_at [] (get_stats_traced sample_stats_set).2 =
      [(container.scanner_stats, []), (container.scanner_stats, [])] := by
  refine ⟨?_, by decide, by decide, by decide⟩
  rintro ⟨r, t, hne, h1, h2⟩
  have hr : r = mutex.Mlock := by
    cases r
    · rfl
    · revert h1; decide
  have ht : t = mutex.Mlock := by
    cases t
    · rfl
    · revert h2; decide
  exact hne (hr.trans ht.symm)

/-- C18 (amended). `get_name`, and `get_alert_recorder` through it, holds `Mlock` and
nothing else at its registry lookup; `add_stats` holds that same `Mlock` and nothing
else at its access to `scanner_stats`; `check_previously_processed` holds
`seen_set_lock` and nothing else at each of its accesses to `seen_set`; each of these
four holds one mutex at most at a time. `get_stats`, `has_name`, `create_name`,
`flush_all` and `close_all` take no lock: no mutex is held at any point of them, and
in particular at none of their container accesses. -/
theorem lock_discipline (M : flag_bits) (W : Nat) (hexdigest : List Nat → String)
    (s : feature_recorder_set) (buf : List Nat) (name bucket : String) (seconds : double)
    (create_stop_file : Bool) :
    held_at [] (get_name_traced M s name).2 = [(container.frm, [mutex.Mlock])] ∧
    held_at [] (get_alert_recorder_traced M s).2 = [(container.frm, [mutex.Mlock])] ∧
    held_at [] (add_stats_traced W s bucket seconds).2 =
      [(container.scanner_stats, [mutex.Mlock])] ∧
    ((container.seen_set, [mutex.seen_set_lock]) ∈
        held_at [] (check_previously_processed_traced hexdigest s buf).2 ∧
      ∀ e ∈ held_at [] (check_previously_processed_traced hexdigest s buf).2,
        e = (container.seen_set, [mutex.seen_set_lock])) ∧
    max_held [] (get_name_traced M s name).2 = 1 ∧
    max_held [] (get_alert_recorder_traced M s).2 = 1 ∧
    max_held [] (add_stats_traced W s bucket seconds).2 = 1 ∧
    max_held [] (check_previously_processed_traced hexdigest s buf).2 = 1 ∧
    max_held [] (get_stats_traced s).2 = 0 ∧
    max_held [] (has_name_traced s name).2 = 0 ∧
    max_held [] (create_name_traced M s name create_stop_file).2 = 0 ∧
    max_held [] (flush_all_traced s).2 = 0 ∧
    max_held [] (close_all_traced s).2 = 0 ∧
    (∀ m : mutex, sync_event.acquire m ∉ (get_stats_traced s).2 ∧
      sync_event.acquire m ∉ (has_name_traced s name).2 ∧
      sync_event.acquire m ∉ (create_name_traced M s name create_stop_file).2 ∧
      sync_event.acquire m ∉ (flush_all_traced s).2 ∧
      sync_event.acquire m ∉ (close_all_traced s).2) ∧
    (∀ e ∈ held_at [] (get_stats_traced s).2, e = (container.scanner_stats, [])) ∧
    (∀ e ∈ held_at [] (has_name_traced s name).2, e = (container.frm, [])) ∧
    (∀ e ∈ held_at [] (create_name_traced M s name create_stop_file).2,
      e = (container.frm, [])) ∧
    (∀ e ∈ held_at [] (flush_all_traced s).2, e = (container.frm, [])) ∧
    (∀ e ∈ held_at [] (close_all_traced s).2, e = (container.frm, [])) := by
  have hcn : (create_name_traced M s name create_stop_file).2 =
      [sync_event.access container.frm] ∨
      (create_name_traced M s name create_stop_file).2 =
        [sync_event.access container.frm, sync_event.access container.frm] ∨
      (create_name_traced M s name create_stop_file).2 =
        [sync_event.access container.frm, sync_event.access container.frm,
         sync_event.access container.frm] := by
    rw [create_name_traced_snd]
    by_cases hp : (map_find s.frm name).isSome = true
    · left
      simp only [hp, if_true]
    · right
      cases create_stop_file
      · left
        simp [hp]
      · right
        simp [hp]
  have hcpp : (check_previously_processed_traced hexdigest s buf).2 =
      [sync_event.acquire mutex.seen_set_lock, sync_event.access container.seen_set,
       sync_event.access container.seen_set, sync_event.release mutex.seen_set_lock] ∨
      (check_previously_processed_traced hexdigest s buf).2 =
      [sync_event.acquire mutex.seen_set_lock, sync_event.access container.seen_set,
       sync_event.release mutex.seen_set_lock] := by
    by_cases hm : hexdigest buf ∈ s.seen_set
    · right
      simp [check_previously_processed_traced, hm]
    · left
      simp [check_previously_processed_traced, hm]
  have hgs : (get_stats_traced s).2 = sync_event.access container.scanner_stats ::
      s.scanner_stats.map (fun _ => sync_event.access container.scanner_stats) := rfl
  have hfl : (flush_all_traced s).2 = sync_event.access container.frm ::
      s.frm.map (fun _ => sync_event.access container.frm) := rfl
  have hcl : (close_all_traced s).2 = sync_event.access container.frm ::
      s.frm.map (fun _ => sync_event.access container.frm) := rfl
  have hhn : (has_name_traced s name).2 = [sync_event.access container.frm] := rfl
  have hacc : ∀ {α : Type} (c : container) (l : List α) (e : container × List mutex),
      e ∈ held_at [] (sync_event.access c :: l.map (fun _ => sync_event.access c)) →
      e = (c, []) := by
    intro α c l e he
    simp only [held_at, held_at_accesses, List.mem_cons, List.mem_map] at he
    rcases he with e1 | ⟨_, _, e1⟩
    · exact e1
    · exact e1.symm
  have hnoacq : ∀ {α : Type} (c : container) (l : List α) (m : mutex),
      sync_event.acquire m ∉
        (sync_event.access c :: l.map (fun _ => sync_event.access c)) := by
    intro α c l m hmem
    simp only [List.mem_cons, List.mem_map] at hmem
    rcases hmem with e1 | ⟨_, _, e1⟩
    · cases e1
    · cases e1
  have hmax : ∀ {α : Type} (c : container) (l : List α),
      max_held [] (sync_event.access c :: l.map (fun _ => sync_event.access c)) = 0 := by
    intro α c l
    simp only [max_held, max_held_accesses, List.length_nil]
  refine ⟨rfl, rfl, rfl, ⟨?_, ?_⟩, rfl, rfl, rfl, ?_, ?_, ?_, ?_, ?_, ?_, ?_, ?_, ?_, ?_,
    ?_, ?_⟩
  · rcases hcpp with h | h <;> rw [h] <;> decide
  · intro e he
    rcases hcpp with h | h <;> rw [h] at he <;> revert e <;> decide
  · rcases hcpp with h | h <;> rw [h] <;> decide
  · rw [hgs]; exact hmax _ _
  · rw [hhn]; rfl
  · rcases hcn with h | h | h <;> rw [h] <;> rfl
  · rw [hfl]; exact hmax _ _
  · rw [hcl]; exact hmax _ _
  · intro m
    refine ⟨?_, ?_, ?_, ?_, ?_⟩
    · rw [hgs]; exact hnoacq _ _ m
    · rw [hhn]; simp
    · rcases hcn with h | h | h <;> rw [h] <;> simp
    · rw [hfl]; exact hnoacq _ _ m
    · rw [hcl]; exact hnoacq _ _ m
  · rw [hgs]; exact hacc _ _
  · rw [hhn]; intro e he; simpa [held_at] using he
  · intro e he
    rcases hcn with h | h | h <;> rw [h] at he <;> simp [held_at] at he <;> exact he
  · rw [hfl]; exact hacc _ _
  · rw [hcl]; exact hacc _ _

end feature_recorder_set

end be13
